import Mathlib

/-!
# Virtual Art Gallery (`src/App.js`): data-flow model

A shallow embedding of the `App` component of `src/App.js`:

* the catalog request builder inside `fetchArtworks` (lines 55-65),
* the paging / search controller (`fetchArtworks`, `loadMore`, the search box handlers),
* the favorites store (`loadFavorites`, `saveFavorites`, `toggleFavorite`, `isFavorite`).

The component keeps its state in `useState` cells.  A handler is a closure of one
render: it reads the constants `loading`, `page`, `searchQuery`, `favorites` of the
render that created it (`App.view`), and it writes the cells; `render` takes the cells
into a new view.  An asynchronous function is split at its `await` into the part that
runs when it is called and the part that runs when the awaited promise settles; calls
that are waiting are kept in `pending` (fetches) and `saving` (storage writes).
User-visible alerts (`Alert.alert`) and console warnings (`console.warn`) are logged.

Numbers are integers of magnitude below 10^21, which JavaScript prints as plain decimal
digits.  Strings are sequences of Unicode characters.
-/

namespace ArtGallery

/-! ## Data model -/

/-- Artwork id: an integer of magnitude below 10^21, so that JavaScript prints it as
its decimal digits. -/
structure ArtworkId where
  val : Int
  plain : val.natAbs < 1000000000000000000000
deriving DecidableEq

/-- Artwork record as consumed from the catalog response (`json.data[i]`), with the
five requested fields; `none` is the JSON value `null` that the catalog returns for a
field without value. -/
structure Artwork where
  id : ArtworkId
  title : String
  artist_display : Option String
  date_display : Option String
  image_id : Option String
deriving DecidableEq

/-- Property key under which an artwork id is stored: the id converted to a string. -/
def propertyKey (id : ArtworkId) : String := toString id.val

/-- Plain JavaScript object used as the favorites mapping: its own properties in the
order in which JavaScript lists them. -/
abbrev Favorites := List (String × Artwork)

/-- Reads decimal digits from the front of the input into `acc`. -/
def readDigits : List Char → Nat → Nat × List Char
  | [], acc => (acc, [])
  | c :: cs, acc =>
    if c.isDigit then readDigits cs (10 * acc + (c.toNat - 48)) else (acc, c :: cs)

/-- Value of a property key that is an array index: the canonical decimal text of an
integer from 0 to 2^32 - 2.  JavaScript lists such keys first, in ascending order. -/
def arrayIndex (key : String) : Option Nat :=
  match key.data with
  | [] => none
  | c :: cs =>
    if c.isDigit then
      match readDigits (c :: cs) 0 with
      | (n, []) => if toString n = key ∧ n < 4294967295 then some n else none
      | (_, _ :: _) => none
    else none

/-- Whether a new property `key` is listed before the existing property `k`. -/
def listedBefore (key k : String) : Bool :=
  match arrayIndex key, arrayIndex k with
  | some n, some m => decide (n < m)
  | some _, none => true
  | none, _ => false

/-- Property read `obj[key]`: `none` is `undefined`. -/
def Favorites.get (obj : Favorites) (key : String) : Option Artwork :=
  match obj with
  | [] => none
  | (k, v) :: rest => if k = key then some v else Favorites.get rest key

/-- Statement `delete obj[key]`. -/
def Favorites.delete (obj : Favorites) (key : String) : Favorites :=
  obj.filter (fun kv => decide (kv.1 ≠ key))

/-- Place of a property that the object does not have yet: array-index keys in
ascending order, then the other keys in the order of their creation. -/
def Favorites.insertNew (obj : Favorites) (key : String) (value : Artwork) : Favorites :=
  match obj with
  | [] => [(key, value)]
  | (k, v) :: rest =>
    if listedBefore key k then (key, value) :: (k, v) :: rest
    else (k, v) :: Favorites.insertNew rest key value

/-- Value replacement for a property that the object has: the property keeps its place. -/
def Favorites.replace (obj : Favorites) (key : String) (value : Artwork) : Favorites :=
  match obj with
  | [] => []
  | (k, v) :: rest =>
    if k = key then (k, value) :: rest else (k, v) :: Favorites.replace rest key value

/-- Assignment `obj[key] = value`. -/
def Favorites.set (obj : Favorites) (key : String) (value : Artwork) : Favorites :=
  if (obj.get key).isSome then obj.replace key value else obj.insertNew key value

/-! ## Text functions of the platform -/

/-- Code points removed by `String.prototype.trim` (ECMAScript WhiteSpace and
LineTerminator). -/
def isTrimmable (c : Char) : Bool :=
  let n := c.toNat
  n = 0x09 || n = 0x0A || n = 0x0B || n = 0x0C || n = 0x0D || n = 0x20 || n = 0xA0 ||
  n = 0x1680 || (0x2000 ≤ n && n ≤ 0x200A) || n = 0x2028 || n = 0x2029 || n = 0x202F ||
  n = 0x205F || n = 0x3000 || n = 0xFEFF

/-- The method `String.prototype.trim`. -/
def trim (s : String) : String :=
  ⟨((s.data.dropWhile isTrimmable).reverse.dropWhile isTrimmable).reverse⟩

/-- The method `String.prototype.split` with a one-character separator, on the
characters of the string; `cur` is the piece being read, reversed. -/
def splitChars (sep : Char) (cur : List Char) : List Char → List String
  | [] => [⟨cur.reverse⟩]
  | c :: cs => if c = sep then ⟨cur.reverse⟩ :: splitChars sep [] cs
               else splitChars sep (c :: cur) cs

def split (s : String) (sep : Char) : List String := splitChars sep [] s.data

/-- Characters `encodeURIComponent` leaves as they are: ASCII letters, digits and
`- _ . ! ~ * ' ( )`. -/
def isUriUnreserved (c : Char) : Bool :=
  let n := c.toNat
  (0x41 ≤ n && n ≤ 0x5A) || (0x61 ≤ n && n ≤ 0x7A) || (0x30 ≤ n && n ≤ 0x39) ||
  n = 0x2D || n = 0x5F || n = 0x2E || n = 0x21 || n = 0x7E || n = 0x2A || n = 0x27 ||
  n = 0x28 || n = 0x29

/-- UTF-8 encoding of a code point, as byte values. -/
def utf8Bytes (c : Char) : List Nat :=
  let n := c.toNat
  if n < 0x80 then [n]
  else if n < 0x800 then [0xC0 + n / 0x40, 0x80 + n % 0x40]
  else if n < 0x10000 then [0xE0 + n / 0x1000, 0x80 + n / 0x40 % 0x40, 0x80 + n % 0x40]
  else [0xF0 + n / 0x40000, 0x80 + n / 0x1000 % 0x40, 0x80 + n / 0x40 % 0x40,
        0x80 + n % 0x40]

/-- Hexadecimal digit, upper case. -/
def hexUpper (d : Nat) : Char := "0123456789ABCDEF".data.getD d '0'

/-- Hexadecimal digit, lower case. -/
def hexLower (d : Nat) : Char := "0123456789abcdef".data.getD d '0'

/-- Percent escape of one byte. -/
def percentEscape (b : Nat) : List Char := ['%', hexUpper (b / 16), hexUpper (b % 16)]

def encodeChar (c : Char) : List Char :=
  if isUriUnreserved c then [c] else (utf8Bytes c).flatMap percentEscape

/-- The global function `encodeURIComponent`. -/
def encodeURIComponent (s : String) : String := ⟨s.data.flatMap encodeChar⟩

def DQUOTE : Char := Char.ofNat 0x22

def BACKSLASH : Char := Char.ofNat 0x5C

def LBRACE : Char := Char.ofNat 0x7B

def RBRACE : Char := Char.ofNat 0x7D

/-- JSON escape of one character inside a string literal. -/
def quoteChar (c : Char) : List Char :=
  let n := c.toNat
  if n = 0x22 then [BACKSLASH, DQUOTE]
  else if n = 0x5C then [BACKSLASH, BACKSLASH]
  else if n = 0x08 then [BACKSLASH, 'b']
  else if n = 0x0C then [BACKSLASH, 'f']
  else if n = 0x0A then [BACKSLASH, 'n']
  else if n = 0x0D then [BACKSLASH, 'r']
  else if n = 0x09 then [BACKSLASH, 't']
  else if n < 0x20 then [BACKSLASH, 'u', '0', '0', hexLower (n / 16), hexLower (n % 16)]
  else [c]

/-- JSON string literal, as `JSON.stringify` writes it. -/
def quote (s : String) : List Char := DQUOTE :: s.data.flatMap quoteChar ++ [DQUOTE]

/-- Pieces joined by a separator (`Array.prototype.join`). -/
def joinChars (sep : List Char) : List (List Char) → List Char
  | [] => []
  | [x] => x
  | x :: y :: rest => x ++ sep ++ joinChars sep (y :: rest)

/-- Values of the properties of the search parameter object: a string, a number below
10^21, or an array of strings. -/
inductive JsonValue where
  | str (s : String)
  | num (n : Nat) (plain : n < 1000000000000000000000)
  | arr (items : List String)
deriving DecidableEq

/-- The function `JSON.stringify` on a property value. -/
def JsonValue.text : JsonValue → List Char
  | .str s => quote s
  | .num n _ => (toString n).data
  | .arr items => '[' :: joinChars [','] (items.map quote) ++ [']']

/-- The function `JSON.stringify` on an object literal whose properties are listed in
source order. -/
def stringifyObject (props : List (String × JsonValue)) : String :=
  ⟨LBRACE :: joinChars [','] (props.map fun kv => quote kv.1 ++ ':' :: kv.2.text) ++ [RBRACE]⟩

/-- Text of an optional string property: `null` when absent. -/
def optionalText (value : Option String) : List Char :=
  match value with
  | none => ['n', 'u', 'l', 'l']
  | some s => quote s

/-- The function `JSON.stringify` on an artwork. -/
def artworkText (a : Artwork) : List Char :=
  LBRACE :: quote "id" ++ ':' :: (toString a.id.val).data ++
  ',' :: quote "title" ++ ':' :: quote a.title ++
  ',' :: quote "artist_display" ++ ':' :: optionalText a.artist_display ++
  ',' :: quote "date_display" ++ ':' :: optionalText a.date_display ++
  ',' :: quote "image_id" ++ ':' :: optionalText a.image_id ++ [RBRACE]

/-- One property of the favorites mapping: key, colon, artwork. -/
def entryText (kv : String × Artwork) : List Char := quote kv.1 ++ ':' :: artworkText kv.2

/-- The function `JSON.stringify` on the favorites mapping (line 45). -/
def stringifyFavorites (favorites : Favorites) : String :=
  ⟨LBRACE :: joinChars [','] (favorites.map entryText) ++ [RBRACE]⟩

/-! ### Reading JSON text back -/

/-- Value of a hexadecimal digit. -/
def hexValue (c : Char) : Option Nat :=
  let n := c.toNat
  if 0x30 ≤ n ∧ n ≤ 0x39 then some (n - 0x30)
  else if 0x41 ≤ n ∧ n ≤ 0x46 then some (n - 0x41 + 10)
  else if 0x61 ≤ n ∧ n ≤ 0x66 then some (n - 0x61 + 10)
  else none

/-- Character denoted by a two-character escape `\e` of a JSON string. -/
def unescape (e : Char) : Option Char :=
  if e = DQUOTE then some DQUOTE
  else if e = BACKSLASH then some BACKSLASH
  else if e = '/' then some '/'
  else if e = 'b' then some (Char.ofNat 0x08)
  else if e = 'f' then some (Char.ofNat 0x0C)
  else if e = 'n' then some (Char.ofNat 0x0A)
  else if e = 'r' then some (Char.ofNat 0x0D)
  else if e = 't' then some (Char.ofNat 0x09)
  else none

/-- Code unit of an escape `\uXXXX`, outside the surrogate range. -/
def unicodeEscape (h1 h2 h3 h4 : Char) : Option Char :=
  match hexValue h1, hexValue h2, hexValue h3, hexValue h4 with
  | some a, some b, some c, some d =>
    let n := ((a * 16 + b) * 16 + c) * 16 + d
    if 0xD800 ≤ n ∧ n ≤ 0xDFFF then none else some (Char.ofNat n)
  | _, _, _, _ => none

/-- Rest of a JSON string literal after its opening quote: the characters up to the
closing quote, and what follows it. -/
def readStringBody : List Char → Option (List Char × List Char)
  | [] => none
  | c :: rest =>
    if c = DQUOTE then some ([], rest)
    else if c = BACKSLASH then
      match rest with
      | [] => none
      | e :: rest1 =>
        if e = 'u' then
          match rest1 with
          | h1 :: h2 :: h3 :: h4 :: rest2 =>
            match unicodeEscape h1 h2 h3 h4 with
            | some ch => (readStringBody rest2).map fun p => (ch :: p.1, p.2)
            | none => none
          | _ => none
        else
          match unescape e with
          | some ch => (readStringBody rest1).map fun p => (ch :: p.1, p.2)
          | none => none
    else if c.toNat < 0x20 then none
    else (readStringBody rest).map fun p => (c :: p.1, p.2)

/-- JSON string literal at the front of the input. -/
def readString : List Char → Option (String × List Char)
  | [] => none
  | c :: rest =>
    if c = DQUOTE then (readStringBody rest).map fun p => (⟨p.1⟩, p.2) else none

/-- The given characters at the front of the input. -/
def expect : List Char → List Char → Option (List Char)
  | [], input => some input
  | _ :: _, [] => none
  | c :: cs, d :: input => if c = d then expect cs input else none

/-- Whether the input starts with a decimal digit. -/
def startsWithDigit : List Char → Bool
  | [] => false
  | c :: _ => c.isDigit

/-- Whether the input starts with a fraction or an exponent of a JSON number. -/
def startsFraction : List Char → Bool
  | [] => false
  | c :: _ => c = '.' || c = 'e' || c = 'E'

/-- JSON number at the front of the input that is a natural number in plain digits:
no leading zero, no fraction, no exponent. -/
def readNat : List Char → Option (Nat × List Char)
  | [] => none
  | c :: cs =>
    if c.isDigit then
      if c = '0' ∧ startsWithDigit cs = true then none
      else
        match readDigits (c :: cs) 0 with
        | (n, rest) => if startsFraction rest then none else some (n, rest)
    else none

/-- JSON number at the front of the input that is an integer in plain digits; the text
`-0` is not one. -/
def readInt : List Char → Option (Int × List Char)
  | [] => none
  | c :: cs =>
    if c = '-' then
      match readNat cs with
      | some (n, rest) => if n = 0 then none else some (-(n : Int), rest)
      | none => none
    else (readNat (c :: cs)).map fun p => ((p.1 : Int), p.2)

/-- Optional string property: `null` or a string literal. -/
def readOptional : List Char → Option (Option String × List Char)
  | [] => none
  | c :: rest =>
    if c = 'n' then (expect ['u', 'l', 'l'] rest).map fun r => (none, r)
    else (readString (c :: rest)).map fun p => (some p.1, p.2)

/-- Artwork object at the front of the input, with the properties `id`, `title`,
`artist_display`, `date_display`, `image_id` in this order. -/
def readArtwork (input : List Char) : Option (Artwork × List Char) :=
  match expect (LBRACE :: quote "id" ++ [':']) input with
  | none => none
  | some r0 =>
  match readInt r0 with
  | none => none
  | some (id, r1) =>
  if plain : id.natAbs < 1000000000000000000000 then
    match expect (',' :: quote "title" ++ [':']) r1 with
    | none => none
    | some r2 =>
    match readString r2 with
    | none => none
    | some (title, r3) =>
    match expect (',' :: quote "artist_display" ++ [':']) r3 with
    | none => none
    | some r4 =>
    match readOptional r4 with
    | none => none
    | some (artist, r5) =>
    match expect (',' :: quote "date_display" ++ [':']) r5 with
    | none => none
    | some r6 =>
    match readOptional r6 with
    | none => none
    | some (date, r7) =>
    match expect (',' :: quote "image_id" ++ [':']) r7 with
    | none => none
    | some r8 =>
    match readOptional r8 with
    | none => none
    | some (image, r9) =>
    match expect [RBRACE] r9 with
    | none => none
    | some r10 => some (⟨⟨id, plain⟩, title, artist, date, image⟩, r10)
  else none

/-- Properties `"key":artwork` separated by commas up to the closing brace; `fuel`
bounds their number. -/
def readEntries : Nat → List Char → Option (List (String × Artwork) × List Char)
  | 0, _ => none
  | fuel + 1, input =>
    match readString input with
    | none => none
    | some (key, r1) =>
    match expect [':'] r1 with
    | none => none
    | some r2 =>
    match readArtwork r2 with
    | none => none
    | some (a, r3) =>
    match r3 with
    | [] => none
    | c :: r4 =>
      if c = ',' then (readEntries fuel r4).map fun p => ((key, a) :: p.1, p.2)
      else if c = RBRACE then some ([(key, a)], r4)
      else none

/-- Object built by defining the properties one after the other, as `JSON.parse` does. -/
def fromEntries (entries : List (String × Artwork)) : Favorites :=
  entries.foldl (fun obj kv => obj.set kv.1 kv.2) []

/-- The function `JSON.parse` (line 37) on the text of a favorites mapping: an object
whose property values are artwork objects, written without white space as
`JSON.stringify` writes it.  The result is `none` where `JSON.parse` throws and for
texts of any other shape, which the data model of the favorites excludes. -/
def parseFavorites (text : String) : Option Favorites :=
  match text.data with
  | [] => none
  | c :: rest =>
    if c = LBRACE then
      if rest = [RBRACE] then some []
      else
        match readEntries rest.length rest with
        | some (entries, []) => some (fromEntries entries)
        | _ => none
    else none

/-! ## Catalog request (lines 18-19 and 55-65) -/

def API_URL : String := "https://api.artic.edu/api/v1/artworks"

def FIELDS : String := "id,title,artist_display,date_display,image_id"

/-- The URL computed by `fetchArtworks(pageNum, query)` before it calls `fetch`
(lines 55-65), for a page number below 10^21.  From 10^21 on JavaScript prints the page
number in exponent notation; that text is not modelled and the result is `none`. -/
def requestUrl (pageNum : Nat) (query : String) : Option String :=
  if plain : pageNum < 1000000000000000000000 then
    let url := API_URL ++ "?fields=" ++ FIELDS ++ "&page=" ++ toString pageNum ++ "&limit=20"
    if (trim query).length > 0 then
      some ("https://api.artic.edu/api/v1/artworks/search?params=" ++
        encodeURIComponent (stringifyObject
          [("q", .str query), ("fields", .arr (split FIELDS ',')),
           ("page", .num pageNum plain), ("limit", .num 20 (by decide))]))
    else some url
  else none

/-! ## Application state and handlers -/

/-- Call of `fetchArtworks(pageNum, query)` that is waiting at `await fetch(url)`. -/
structure Request where
  pageNum : Nat
  query : String
  url : Option String
deriving DecidableEq

/-- Ways in which `await fetch(url)` / `await res.json()` can throw. -/
inductive FetchError where
  | networkRejected
  | undecodable
deriving DecidableEq

/-- Outcome of the two awaits of `fetchArtworks`: the decoded `json.data`, or a throw. -/
inductive FetchResult where
  | ok (data : List Artwork)
  | error (e : FetchError)
deriving DecidableEq

/-- Constants of one render that the handlers created by that render read. -/
structure View where
  loading : Bool
  page : Nat
  searchQuery : String
  favorites : Favorites
deriving DecidableEq

/-- State of the component and of what it talks to.  `artworks`, `loading`, `page`,
`searchQuery`, `modalArtwork` and `favorites` are the `useState` cells of `App`; `view`
holds the constants of the latest render; `pending` holds the fetch calls awaiting
their answer, `saving` the `saveFavorites` calls awaiting `setItem`, each with its
argument; `alerts` logs the `Alert.alert` calls, `warnings` the `console.warn` calls;
`storage` is the content of `AsyncStorage`. -/
structure App where
  artworks : List Artwork
  loading : Bool
  page : Nat
  searchQuery : String
  modalArtwork : Option Artwork
  favorites : Favorites
  view : View
  pending : List Request
  saving : List Favorites
  alerts : List (String × String)
  warnings : List String
  storage : List (String × String)

/-- First render of a process whose `AsyncStorage` holds `storage` (lines 22-27). -/
def App.start (storage : List (String × String)) : App :=
  { artworks := [], loading := false, page := 1, searchQuery := "", modalArtwork := none,
    favorites := [], view := ⟨false, 1, "", []⟩, pending := [], saving := [],
    alerts := [], warnings := [], storage := storage }

/-- First render on a device with nothing stored. -/
def App.initial : App := App.start []

/-- Re-render: the cells become the constants that the handlers read from then on. -/
def render (s : App) : App :=
  { s with view := ⟨s.loading, s.page, s.searchQuery, s.favorites⟩ }

/-- Part of `fetchArtworks` up to `await fetch(url)` (lines 53-66). -/
def fetchArtworksCall (pageNum : Nat) (query : String) (s : App) : App :=
  { s with loading := true,
           pending := s.pending ++ [⟨pageNum, query, requestUrl pageNum query⟩] }

/-- Part of `fetchArtworks` after the awaits (lines 67-80) for the call `r`. -/
def fetchArtworksSettle (r : Request) (res : FetchResult) (s : App) : App :=
  let s1 : App :=
    match res with
    | .ok data =>
      { s with artworks := if r.pageNum = 1 then data else s.artworks ++ data,
               page := r.pageNum }
    | .error _ => { s with alerts := s.alerts ++ [("Error", "Failed to load artworks")] }
  { s1 with loading := false }

/-- The effect of line 31: `fetchArtworks(page, searchQuery)` with the constants of the
first render. -/
def initialLoad (s : App) : App :=
  fetchArtworksCall App.initial.view.page App.initial.view.searchQuery s

/-- Handler `onChangeText={setSearchQuery}` (line 122). -/
def onChangeText (text : String) (s : App) : App := { s with searchQuery := text }

/-- Handler `onSubmitEditing` (line 123). -/
def onSubmitEditing (s : App) : App := fetchArtworksCall 1 s.view.searchQuery s

/-- Typing `q` in the search box, which re-renders it, and submitting it. -/
def search (q : String) (s : App) : App := onSubmitEditing (render (onChangeText q s))

/-- Handler `loadMore` (lines 83-85). -/
def loadMore (s : App) : App :=
  if !s.view.loading then fetchArtworksCall (s.view.page + 1) s.view.searchQuery s else s

/-- The `i`-th pending fetch call gets its answer `res`. -/
def settle (i : Nat) (res : FetchResult) (s : App) : App :=
  match s.pending.get? i with
  | some r => fetchArtworksSettle r res { s with pending := s.pending.eraseIdx i }
  | none => s

/-- Method `AsyncStorage.getItem`. -/
def getItem (storage : List (String × String)) (key : String) : Option String :=
  match storage with
  | [] => none
  | (k, v) :: rest => if k = key then some v else getItem rest key

/-- Method `AsyncStorage.setItem`. -/
def setItem (storage : List (String × String)) (key : String) (value : String) :
    List (String × String) :=
  (key, value) :: storage.filter (fun kv => decide (kv.1 ≠ key))

/-- Function `loadFavorites` (lines 34-41), the read and its delivery taken as one
step; `readOk = false` when `getItem` rejects. -/
def loadFavorites (readOk : Bool) (s : App) : App :=
  if readOk then
    match getItem s.storage "@favorites" with
    | some jsonValue =>
      match parseFavorites jsonValue with
      | some value => { s with favorites := value }
      | none => { s with warnings := s.warnings ++ ["Failed to load favorites"] }
    | none => s
  else { s with warnings := s.warnings ++ ["Failed to load favorites"] }

/-- Part of `saveFavorites` up to `await AsyncStorage.setItem(...)` (lines 44-45). -/
def saveFavoritesCall (newFavorites : Favorites) (s : App) : App :=
  { s with saving := s.saving ++ [newFavorites] }

/-- Part of `saveFavorites` after the await (lines 45-49); `writeOk = false` when
`setItem` rejects. -/
def saveFavoritesSettle (newFavorites : Favorites) (writeOk : Bool) (s : App) : App :=
  if writeOk then
    { s with storage := setItem s.storage "@favorites" (stringifyFavorites newFavorites),
             favorites := newFavorites }
  else { s with warnings := s.warnings ++ ["Failed to save favorites"] }

/-- The mapping `newFavs` computed by `toggleFavorite` (lines 88-93).  The values of
the properties are artwork objects, which are truthy, so the test `newFavs[artwork.id]`
holds exactly when the property is there. -/
def newFavs (favorites : Favorites) (artwork : Artwork) : Favorites :=
  let copy := favorites
  if (copy.get (propertyKey artwork.id)).isSome then copy.delete (propertyKey artwork.id)
  else copy.set (propertyKey artwork.id) artwork

/-- Function `toggleFavorite` (lines 87-95): it copies the `favorites` of its render
and returns once `saveFavorites` is waiting for its write. -/
def toggleFavorite (artwork : Artwork) (s : App) : App :=
  saveFavoritesCall (newFavs s.view.favorites artwork) s

/-- The `i`-th waiting `saveFavorites` call learns the outcome of its write. -/
def settleSave (i : Nat) (writeOk : Bool) (s : App) : App :=
  match s.saving.get? i with
  | some newFavorites =>
    saveFavoritesSettle newFavorites writeOk { s with saving := s.saving.eraseIdx i }
  | none => s

/-- Function `isFavorite` (line 97), as the latest render evaluates it. -/
def isFavorite (s : App) (id : ArtworkId) : Bool :=
  (s.view.favorites.get (propertyKey id)).isSome

/-! ## Runs of the controller -/

/-- Things that happen to the controller: the effect of the first render, the two
handlers of the search box, both in a row (`search`), scrolling near the end of the
list, the answer to a pending fetch call, and a re-render. -/
inductive Op where
  | initialLoad
  | changeText (text : String)
  | submit
  | search (q : String)
  | loadMore
  | settle (i : Nat) (res : FetchResult)
  | render
deriving DecidableEq

/-- Effect of one operation on the state. -/
def applyOp (op : Op) (s : App) : App :=
  match op with
  | .initialLoad => initialLoad s
  | .changeText text => onChangeText text s
  | .submit => onSubmitEditing s
  | .search q => search q s
  | .loadMore => loadMore s
  | .settle i res => settle i res s
  | .render => render s

/-- State after the operations `ops`, in order, from `s`. -/
def run : List Op → App → App
  | [], s => s
  | op :: rest, s => run rest (applyOp op s)

/-- Whether `op` starts a fetch without looking at `loading`. -/
def Op.isUnguardedFetch : Op → Bool
  | .initialLoad => true
  | .submit => true
  | .search _ => true
  | _ => false

/-- Whether, along `ops` from `s`, every unguarded fetch is started while no fetch
call is pending. -/
def oneAtATime : List Op → App → Bool
  | [], _ => true
  | op :: rest, s =>
    (!op.isUnguardedFetch || s.pending.isEmpty) && oneAtATime rest (applyOp op s)

/-- Whether, along `ops` from `s`, every `loadMore` is called from a render that shows
the current value of `loading`. -/
def guardsCurrent : List Op → App → Bool
  | [], _ => true
  | op :: rest, s =>
    (!decide (op = Op.loadMore) || decide (s.view.loading = s.loading)) &&
      guardsCurrent rest (applyOp op s)

/-- Bookkeeping for provenance: the elements of `artworks`, each with the query of the
fetch call that returned it.  It follows lines 70-74 and is read by no handler. -/
def tagStep (op : Op) (s : App) (tagged : List (Artwork × String)) :
    List (Artwork × String) :=
  match op with
  | .settle i (.ok data) =>
    match s.pending.get? i with
    | some r =>
      if r.pageNum = 1 then data.map (fun a => (a, r.query))
      else tagged ++ data.map (fun a => (a, r.query))
    | none => tagged
  | _ => tagged

/-- Provenance bookkeeping along a run. -/
def runTagged : List Op → App → List (Artwork × String) → List (Artwork × String)
  | [], _, tagged => tagged
  | op :: rest, s, tagged => runTagged rest (applyOp op s) (tagStep op s tagged)

/-- Operations of a session in which the search text only changes by a submitted
search and fetches succeed: `search q`, `loadMore`, successful answers, re-renders. -/
def Op.isSearchSession : Op → Bool
  | .search _ => true
  | .loadMore => true
  | .settle _ (.ok _) => true
  | .render => true
  | _ => false

/-! ## Predicates and sample states used in the statements -/

/-- What a failed fetch leaves behind, from `before` to `after`: same `artworks`, same
`page`, `loading` false, and exactly one more alert, the generic one. -/
def FailedFetchOutcome (before after : App) : Prop :=
  after.artworks = before.artworks ∧ after.page = before.page ∧ after.loading = false ∧
  after.alerts = before.alerts ++ [("Error", "Failed to load artworks")]

/-- What the `loading` guard maintains when fetches are started one at a time from
current renders: at most one call is pending, and none when `loading` is false. -/
def OneInFlight (s : App) : Prop :=
  s.pending.length ≤ 1 ∧ (s.loading = false → s.pending = [])

/-- Page numbers of the state, of the latest render and of the pending calls are at
least 1. -/
def PagesPositive (s : App) : Prop :=
  1 ≤ s.page ∧ 1 ≤ s.view.page ∧ ∀ r ∈ s.pending, 1 ≤ r.pageNum

/-- What holds of the provenance `tagged` along a search session whose searches wait
for pending calls: the render shows the current query, page numbers are at least 1,
pending calls are for the current query, and the items are all of the current query
unless a call for page 1 is still pending. -/
def SessionInv (s : App) (tagged : List (Artwork × String)) : Prop :=
  s.view.searchQuery = s.searchQuery ∧ 1 ≤ s.page ∧ 1 ≤ s.view.page ∧
  (∀ r ∈ s.pending, 1 ≤ r.pageNum ∧ r.query = s.searchQuery) ∧
  ((∀ x ∈ tagged, x.2 = s.searchQuery) ∨ ∃ r ∈ s.pending, r.pageNum = 1)

/-- Sample artworks. -/
def waterLilies : Artwork :=
  ⟨⟨16568, by decide⟩, "Water Lilies", some "Claude Monet", some "1906", none⟩

def nighthawks : Artwork :=
  ⟨⟨111628, by decide⟩, "Nighthawks", some "Edward Hopper", some "1942", none⟩

/-- Artwork 7 as favorited some time ago, and as the catalog returns it now. -/
def sevenThen : Artwork := ⟨⟨7, by decide⟩, "Untitled", none, none, none⟩

def sevenNow : Artwork := ⟨⟨7, by decide⟩, "Untitled (Study)", some "Unknown", none, none⟩

/-- State used to exercise `loadMore`: one item of the query "monet" shown, page 2. -/
def monetPageTwo : App :=
  render { App.initial with artworks := [waterLilies], page := 2, searchQuery := "monet" }

/-- Run in which the search text is changed without being submitted before the list
is scrolled: initial load answered, text "monet" typed, `loadMore` answered, with a
re-render after each step. -/
def typedThenScrolled : List Op :=
  [Op.initialLoad, Op.render, Op.settle 0 (.ok [nighthawks]), Op.render,
   Op.changeText "monet", Op.render, Op.loadMore, Op.render,
   Op.settle 0 (.ok [waterLilies]), Op.render]

/-- Search session used to exercise provenance: a search answered with one item and a
`loadMore` answered with another. -/
def monetSession : List Op :=
  [Op.search "monet", Op.render, Op.settle 0 (.ok [waterLilies]), Op.render, Op.loadMore,
   Op.settle 0 (.ok [waterLilies])]

/-- State whose favorites hold the older snapshot of artwork 7. -/
def staleFavorite : App :=
  render { App.initial with favorites := [("7", sevenThen)] }

/-- Property keys as JavaScript lists them: no key twice, and no key placed after a key
it is listed before (array-index keys ascending, then the other keys). -/
def KeysInOrder (keys : List String) : Prop :=
  keys.Pairwise fun earlier later => earlier ≠ later ∧ listedBefore later earlier = false

/-- The list is a JavaScript object: its keys are in the order of `KeysInOrder`. -/
def IsObject (obj : Favorites) : Prop := KeysInOrder (obj.map Prod.fst)

/-! ### The catalog requests as the external interface describes them -/

/-- Code points of white space and line terminators, which trimming removes. -/
def Interface.whitespaceCodes : List Nat :=
  [0x09, 0x0A, 0x0B, 0x0C, 0x0D, 0x20, 0xA0, 0x1680, 0x2000, 0x2001, 0x2002, 0x2003,
   0x2004, 0x2005, 0x2006, 0x2007, 0x2008, 0x2009, 0x200A, 0x2028, 0x2029, 0x202F,
   0x205F, 0x3000, 0xFEFF]

/-- Whether the query trimmed of white space is empty: it has no other character. -/
def Interface.isBlank (q : String) : Bool :=
  q.data.all fun c => decide (c.toNat ∈ Interface.whitespaceCodes)

/-- Field projection requested from the catalog, as a list. -/
def Interface.projection : List String :=
  ["id", "title", "artist_display", "date_display", "image_id"]

/-- Content of the JSON object of a search request. -/
structure Interface.SearchParams where
  q : String
  fields : List String
  page : Nat
  limit : Nat
deriving DecidableEq

/-- Bytes of a URL-encoded value: `%XX` is the byte XX, any other character must be
ASCII and stands for itself. -/
def Interface.percentDecode : List Char → Option (List Nat)
  | [] => some []
  | c :: rest =>
    if c = '%' then
      match rest with
      | h :: l :: rest2 =>
        match hexValue h, hexValue l with
        | some a, some b => (Interface.percentDecode rest2).map fun bs => (16 * a + b) :: bs
        | _, _ => none
      | _ => none
    else if c.toNat < 0x80 then (Interface.percentDecode rest).map fun bs => c.toNat :: bs
    else none

/-- Whether a byte is a UTF-8 continuation byte. -/
def Interface.isContinuation (b : Nat) : Bool := decide (0x80 ≤ b) && decide (b < 0xC0)

/-- First character of a UTF-8 byte sequence and the bytes after it; `none` when the
sequence does not start with a well-formed character. -/
def Interface.decodeOne : List Nat → Option (Char × List Nat)
  | [] => none
  | b0 :: rest =>
    if b0 < 0x80 then some (Char.ofNat b0, rest)
    else if b0 < 0xC0 then none
    else if b0 < 0xE0 then
      match rest with
      | b1 :: rest1 =>
        if Interface.isContinuation b1 = true ∧ 0x80 ≤ (b0 - 0xC0) * 0x40 + (b1 - 0x80) then
          some (Char.ofNat ((b0 - 0xC0) * 0x40 + (b1 - 0x80)), rest1)
        else none
      | _ => none
    else if b0 < 0xF0 then
      match rest with
      | b1 :: b2 :: rest2 =>
        if Interface.isContinuation b1 = true ∧ Interface.isContinuation b2 = true ∧
            0x800 ≤ ((b0 - 0xE0) * 0x40 + (b1 - 0x80)) * 0x40 + (b2 - 0x80) ∧
            ¬ (0xD800 ≤ ((b0 - 0xE0) * 0x40 + (b1 - 0x80)) * 0x40 + (b2 - 0x80) ∧
               ((b0 - 0xE0) * 0x40 + (b1 - 0x80)) * 0x40 + (b2 - 0x80) ≤ 0xDFFF) then
          some (Char.ofNat (((b0 - 0xE0) * 0x40 + (b1 - 0x80)) * 0x40 + (b2 - 0x80)), rest2)
        else none
      | _ => none
    else if b0 < 0xF8 then
      match rest with
      | b1 :: b2 :: b3 :: rest3 =>
        if Interface.isContinuation b1 = true ∧ Interface.isContinuation b2 = true ∧
            Interface.isContinuation b3 = true ∧
            0x10000 ≤ (((b0 - 0xF0) * 0x40 + (b1 - 0x80)) * 0x40 + (b2 - 0x80)) * 0x40
              + (b3 - 0x80) ∧
            (((b0 - 0xF0) * 0x40 + (b1 - 0x80)) * 0x40 + (b2 - 0x80)) * 0x40 + (b3 - 0x80)
              < 0x110000 then
          some (Char.ofNat ((((b0 - 0xF0) * 0x40 + (b1 - 0x80)) * 0x40 + (b2 - 0x80)) * 0x40
            + (b3 - 0x80)), rest3)
        else none
      | _ => none
    else none

/-- Characters of a UTF-8 byte sequence, read one after the other; `fuel` bounds their
number. -/
def Interface.utf8DecodeLoop : Nat → List Nat → Option (List Char)
  | _, [] => some []
  | 0, _ :: _ => none
  | fuel + 1, b :: bs =>
    match Interface.decodeOne (b :: bs) with
    | none => none
    | some (c, rest) => (Interface.utf8DecodeLoop fuel rest).map fun cs => c :: cs

/-- Characters of a UTF-8 byte sequence; `none` for a sequence that is not well formed. -/
def Interface.utf8Decode (bytes : List Nat) : Option (List Char) :=
  Interface.utf8DecodeLoop bytes.length bytes

/-- URL decoding of a parameter value. -/
def Interface.decodeURIComponent (value : String) : Option String :=
  match Interface.percentDecode value.data with
  | none => none
  | some bytes => (Interface.utf8Decode bytes).map String.mk

/-- String literals separated by commas up to the closing bracket; `fuel` bounds their
number. -/
def Interface.readStrings : Nat → List Char → Option (List String × List Char)
  | 0, _ => none
  | fuel + 1, input =>
    match readString input with
    | none => none
    | some (s, r) =>
      match r with
      | [] => none
      | c :: r1 =>
        if c = ',' then (Interface.readStrings fuel r1).map fun p => (s :: p.1, p.2)
        else if c = ']' then some ([s], r1)
        else none

/-- JSON array of strings at the front of the input. -/
def Interface.readArray : List Char → Option (List String × List Char)
  | [] => none
  | c :: rest =>
    if c = '[' then
      match rest with
      | [] => none
      | d :: rest1 =>
        if d = ']' then some ([], rest1) else Interface.readStrings rest.length rest
    else none

/-- Property name `name` and its colon at the front of the input. -/
def Interface.readKey (name : String) (input : List Char) : Option (List Char) :=
  match readString input with
  | none => none
  | some (key, r) => if key = name then expect [':'] r else none

/-- Content of a JSON text that is an object with the properties `q` (a string),
`fields` (an array of strings), `page` and `limit` (numbers), in this order. -/
def Interface.readParams (json : String) : Option Interface.SearchParams :=
  match expect [Char.ofNat 0x7B] json.data with
  | none => none
  | some r0 =>
  match Interface.readKey "q" r0 with
  | none => none
  | some r1 =>
  match readString r1 with
  | none => none
  | some (q, r2) =>
  match expect [','] r2 with
  | none => none
  | some r3 =>
  match Interface.readKey "fields" r3 with
  | none => none
  | some r4 =>
  match Interface.readArray r4 with
  | none => none
  | some (fields, r5) =>
  match expect [','] r5 with
  | none => none
  | some r6 =>
  match Interface.readKey "page" r6 with
  | none => none
  | some r7 =>
  match readNat r7 with
  | none => none
  | some (page, r8) =>
  match expect [','] r8 with
  | none => none
  | some r9 =>
  match Interface.readKey "limit" r9 with
  | none => none
  | some r10 =>
  match readNat r10 with
  | none => none
  | some (limit, r11) =>
  match expect [Char.ofNat 0x7D] r11 with
  | some [] => some ⟨q, fields, page, limit⟩
  | _ => none

/-- Query " monet é&x" used to exercise the request builder, and a query of a space
and a tab. -/
def sampleQuery : String := " monet é&x"

def blankQuery : String := ⟨[' ', Char.ofNat 9]⟩

/-! ## Helper lemmas: text -/

theorem digitChar_isDigit (m : Nat) (h : m < 10) :
    (Nat.digitChar m).isDigit = true ∧ (Nat.digitChar m).toNat - 48 = m := by
  interval_cases m <;> decide

theorem digitChar_ne_zero (m : Nat) (h0 : 0 < m) (h : m < 10) : Nat.digitChar m ≠ '0' := by
  interval_cases m <;> decide

theorem toDigitsCore_append (fuel n : Nat) (ds rest : List Char) :
    Nat.toDigitsCore 10 fuel n ds ++ rest = Nat.toDigitsCore 10 fuel n (ds ++ rest) := by
  induction fuel generalizing n ds with
  | zero => rfl
  | succ fuel ih =>
    simp only [Nat.toDigitsCore]
    split
    · rfl
    · exact ih _ _

theorem readDigits_toDigitsCore (fuel n : Nat) (ds : List Char) (h : n < fuel) :
    readDigits (Nat.toDigitsCore 10 fuel n ds) 0 = readDigits ds n := by
  induction fuel generalizing n ds with
  | zero => omega
  | succ fuel ih =>
    have hd := digitChar_isDigit (n % 10) (Nat.mod_lt _ (by decide))
    simp only [Nat.toDigitsCore]
    split
    · rename_i h0
      have : n % 10 = n := by omega
      rw [this] at hd ⊢
      simp [readDigits, hd.1, hd.2]
    · rename_i h0
      rw [ih (n / 10) _ (by omega)]
      simp only [readDigits, hd.1, if_true, hd.2]
      congr 1
      omega

/-- First digit of the decimal text of a positive number: not zero. -/
theorem toDigitsCore_head (fuel n : Nat) (ds : List Char) (h : n < fuel) (hn : 0 < n) :
    ∃ m cs, 0 < m ∧ m < 10 ∧ Nat.toDigitsCore 10 fuel n ds = Nat.digitChar m :: cs := by
  induction fuel generalizing n ds with
  | zero => omega
  | succ fuel ih =>
    simp only [Nat.toDigitsCore]
    split
    · rename_i h0
      exact ⟨n % 10, ds, by omega, Nat.mod_lt _ (by decide), rfl⟩
    · rename_i h0
      exact ih (n / 10) _ (by omega) (by omega)

theorem repr_data (n : Nat) : (toString n).data = Nat.toDigitsCore 10 (n + 1) n [] := rfl

theorem readDigits_of_not_digit (rest : List Char) (n : Nat)
    (h : startsWithDigit rest = false) : readDigits rest n = (n, rest) := by
  cases rest with
  | nil => rfl
  | cons c cs =>
    have hc : c.isDigit = false := h
    simp [readDigits, hc]

theorem readNat_toString (n : Nat) (rest : List Char)
    (hdigit : startsWithDigit rest = false) (hfrac : startsFraction rest = false) :
    readNat ((toString n).data ++ rest) = some (n, rest) := by
  have hread : readDigits ((toString n).data ++ rest) 0 = (n, rest) := by
    rw [repr_data, toDigitsCore_append, readDigits_toDigitsCore _ _ _ (Nat.lt_succ_self n)]
    exact readDigits_of_not_digit rest n hdigit
  rcases Nat.eq_zero_or_pos n with h0 | hpos
  · subst h0
    have htext : (toString 0).data ++ rest = '0' :: rest := rfl
    rw [htext] at hread ⊢
    simp only [readNat]
    rw [hread]
    simp [hdigit, hfrac]
  · obtain ⟨m, cs, hm0, hm10, hcs⟩ :=
      toDigitsCore_head (n + 1) n [] (Nat.lt_succ_self n) hpos
    have htext : (toString n).data ++ rest = Nat.digitChar m :: (cs ++ rest) := by
      rw [repr_data, hcs]; rfl
    rw [htext] at hread ⊢
    simp only [readNat]
    rw [hread]
    simp [(digitChar_isDigit m hm10).1, digitChar_ne_zero m hm0 hm10, hfrac]

theorem int_toString_ofNat (m : Nat) : (toString (Int.ofNat m)).data = (toString m).data := rfl

theorem int_toString_negSucc (m : Nat) :
    (toString (Int.negSucc m)).data = '-' :: (toString (m + 1)).data := rfl

theorem readInt_toString (n : Int) (rest : List Char)
    (hdigit : startsWithDigit rest = false) (hfrac : startsFraction rest = false) :
    readInt ((toString n).data ++ rest) = some (n, rest) := by
  cases n with
  | ofNat m =>
    have hnat := readNat_toString m rest hdigit hfrac
    rw [int_toString_ofNat]
    rcases Nat.eq_zero_or_pos m with h0 | hpos
    · subst h0
      have htext : (toString 0).data ++ rest = '0' :: rest := rfl
      rw [htext] at hnat ⊢
      simp only [readInt]
      rw [if_neg (by decide), hnat]
      rfl
    · obtain ⟨d, cs, hd0, hd10, hcs⟩ :=
        toDigitsCore_head (m + 1) m [] (Nat.lt_succ_self m) hpos
      have htext : (toString m).data ++ rest = Nat.digitChar d :: (cs ++ rest) := by
        rw [repr_data, hcs]; rfl
      rw [htext] at hnat ⊢
      have hminus : Nat.digitChar d ≠ '-' := by
        interval_cases d <;> decide
      simp only [readInt]
      rw [if_neg hminus, hnat]
      rfl
  | negSucc m =>
    rw [int_toString_negSucc]
    show readInt ('-' :: ((toString (m + 1)).data ++ rest)) = some (Int.negSucc m, rest)
    simp only [readInt, if_true]
    rw [readNat_toString (m + 1) rest hdigit hfrac]
    simp [Int.negSucc_eq]

theorem hexValue_hexLower (d : Nat) (h : d < 16) : hexValue (hexLower d) = some d := by
  interval_cases d <;> decide

theorem hexValue_hexUpper (d : Nat) (h : d < 16) : hexValue (hexUpper d) = some d := by
  interval_cases d <;> decide

theorem readStringBody_cons (c : Char) (rest : List Char) :
    readStringBody (c :: rest) =
      if c = DQUOTE then some ([], rest)
      else if c = BACKSLASH then
        match rest with
        | [] => none
        | e :: rest1 =>
          if e = 'u' then
            match rest1 with
            | h1 :: h2 :: h3 :: h4 :: rest2 =>
              match unicodeEscape h1 h2 h3 h4 with
              | some ch => (readStringBody rest2).map fun p => (ch :: p.1, p.2)
              | none => none
            | _ => none
          else
            match unescape e with
            | some ch => (readStringBody rest1).map fun p => (ch :: p.1, p.2)
            | none => none
      else if c.toNat < 0x20 then none
      else (readStringBody rest).map fun p => (c :: p.1, p.2) := by
  rw [readStringBody.eq_def]

theorem readStringBody_quoteChar (c : Char) (tail : List Char) (p : List Char × List Char)
    (h : readStringBody tail = some p) :
    readStringBody (quoteChar c ++ tail) = some (c :: p.1, p.2) := by
  by_cases hlow : c.toNat < 0x20
  · have hc : c = Char.ofNat c.toNat := (Char.ofNat_toNat c).symm
    generalize c.toNat = k at hc hlow
    subst hc
    interval_cases k <;>
      simp [quoteChar, readStringBody_cons, unescape, unicodeEscape, hexValue, hexLower,
        DQUOTE, BACKSLASH, h]
  · by_cases hq : c.toNat = 0x22
    · have hc : c = Char.ofNat 0x22 := by rw [← hq, Char.ofNat_toNat]
      subst hc
      simp [quoteChar, readStringBody_cons, unescape, DQUOTE, BACKSLASH, h]
    · by_cases hb : c.toNat = 0x5C
      · have hc : c = Char.ofNat 0x5C := by rw [← hb, Char.ofNat_toNat]
        subst hc
        simp [quoteChar, readStringBody_cons, unescape, DQUOTE, BACKSLASH, h]
      · have h1 : c ≠ DQUOTE := fun heq => hq (by rw [heq]; rfl)
        have h2 : c ≠ BACKSLASH := fun heq => hb (by rw [heq]; rfl)
        have hq1 : quoteChar c = [c] := by
          unfold quoteChar
          have h8 : c.toNat ≠ 0x08 := by omega
          have h9 : c.toNat ≠ 0x09 := by omega
          have hA : c.toNat ≠ 0x0A := by omega
          have hC : c.toNat ≠ 0x0C := by omega
          have hD : c.toNat ≠ 0x0D := by omega
          simp [hq, hb, h8, h9, hA, hC, hD, hlow]
        rw [hq1]
        simp [readStringBody_cons, h1, h2, hlow, h]

theorem readStringBody_flatMap (cs rest : List Char) :
    readStringBody (cs.flatMap quoteChar ++ DQUOTE :: rest) = some (cs, rest) := by
  induction cs with
  | nil => simp [readStringBody_cons]
  | cons c cs ih =>
    rw [List.flatMap_cons, List.append_assoc]
    exact readStringBody_quoteChar c _ (cs, rest) ih

theorem quote_append (s : String) (rest : List Char) :
    quote s ++ rest = DQUOTE :: (s.data.flatMap quoteChar ++ DQUOTE :: rest) := by
  simp [quote]

theorem readString_quote (s : String) (rest : List Char) :
    readString (quote s ++ rest) = some (s, rest) := by
  rw [quote_append]
  simp [readString, readStringBody_flatMap]

theorem expect_append (lit rest : List Char) : expect lit (lit ++ rest) = some rest := by
  induction lit with
  | nil => cases rest <;> rfl
  | cons c cs ih => simp [expect, ih]

theorem readOptional_optionalText (value : Option String) (rest : List Char) :
    readOptional (optionalText value ++ rest) = some (value, rest) := by
  cases value with
  | none => simp [optionalText, readOptional, expect]
  | some s =>
    rw [optionalText, quote_append]
    have hn : DQUOTE ≠ 'n' := by decide
    simp only [readOptional, if_neg hn]
    rw [← quote_append, readString_quote]
    rfl

theorem expect_nil (rest : List Char) : expect [] rest = some rest := by
  cases rest <;> rfl

theorem expect_cons (c : Char) (lit rest : List Char) :
    expect (c :: lit) (c :: rest) = expect lit rest := by
  simp [expect]

theorem expect_append_left (l1 l2 rest : List Char) :
    expect (l1 ++ l2) (l1 ++ rest) = expect l2 rest := by
  induction l1 with
  | nil => rfl
  | cons c cs ih => simpa [expect] using ih

theorem startsWithDigit_comma (rest : List Char) : startsWithDigit (',' :: rest) = false :=
  rfl

theorem startsFraction_comma (rest : List Char) : startsFraction (',' :: rest) = false :=
  rfl

theorem readArtwork_artworkText (a : Artwork) (rest : List Char) :
    readArtwork (artworkText a ++ rest) = some (a, rest) := by
  unfold readArtwork
  simp only [artworkText, List.append_assoc, List.cons_append, List.nil_append,
    expect_cons, expect_append_left, expect_nil,
    readInt_toString _ _ (startsWithDigit_comma _) (startsFraction_comma _),
    readString_quote, readOptional_optionalText, dif_pos a.id.plain]

theorem entryText_append (kv : String × Artwork) (rest : List Char) :
    entryText kv ++ rest = quote kv.1 ++ (':' :: (artworkText kv.2 ++ rest)) := by
  simp [entryText]

theorem entryText_eq_cons (kv : String × Artwork) :
    ∃ cs, entryText kv = DQUOTE :: cs := ⟨_, by simp [entryText, quote]; rfl⟩

theorem readEntries_succ (fuel : Nat) (input : List Char) :
    readEntries (fuel + 1) input =
      match readString input with
      | none => none
      | some (key, r1) =>
      match expect [':'] r1 with
      | none => none
      | some r2 =>
      match readArtwork r2 with
      | none => none
      | some (a, r3) =>
      match r3 with
      | [] => none
      | c :: r4 =>
        if c = ',' then (readEntries fuel r4).map fun p => ((key, a) :: p.1, p.2)
        else if c = RBRACE then some ([(key, a)], r4)
        else none := by
  rw [readEntries]

theorem readEntries_joinChars (m : List (String × Artwork)) (hm : m ≠ []) (fuel : Nat)
    (hfuel : m.length ≤ fuel) (tail : List Char) :
    readEntries fuel (joinChars [','] (m.map entryText) ++ RBRACE :: tail) = some (m, tail) := by
  induction m generalizing fuel with
  | nil => exact absurd rfl hm
  | cons kv rest ih =>
    cases fuel with
    | zero => simp at hfuel
    | succ f =>
      have hbrace : RBRACE ≠ ',' := by decide
      cases rest with
      | nil =>
        simp only [List.map_cons, List.map_nil, joinChars]
        rw [readEntries_succ, entryText_append, readString_quote]
        simp only [expect_cons, expect_nil]
        rw [readArtwork_artworkText]
        simp [hbrace]
      | cons kv2 rest2 =>
        have hlen : (kv2 :: rest2).length ≤ f := by
          simp only [List.length_cons] at hfuel ⊢
          omega
        have hrec := ih (List.cons_ne_nil _ _) f hlen
        simp only [List.map_cons, joinChars, List.append_assoc] at hrec ⊢
        rw [readEntries_succ, entryText_append, readString_quote]
        simp only [expect_cons, expect_nil]
        rw [readArtwork_artworkText]
        simp only [List.singleton_append, List.cons_append, List.nil_append, if_true]
        rw [hrec]
        rfl

theorem length_le_joinChars (m : List (String × Artwork)) :
    m.length ≤ (joinChars [','] (m.map entryText)).length := by
  induction m with
  | nil => simp [joinChars]
  | cons kv rest ih =>
    obtain ⟨cs, hcs⟩ := entryText_eq_cons kv
    cases rest with
    | nil => simp [joinChars, hcs]
    | cons kv2 rest2 =>
      simp only [List.map_cons, joinChars, List.length_append, List.length_cons] at ih ⊢
      omega

/-- Reading back the text of a favorites mapping gives the object that has the same
properties defined in the same order. -/
theorem parseFavorites_stringifyFavorites (m : Favorites) :
    parseFavorites (stringifyFavorites m) = some (fromEntries m) := by
  cases m with
  | nil => simp [parseFavorites, stringifyFavorites, joinChars, fromEntries]
  | cons kv rest =>
    obtain ⟨cs, hcs⟩ : ∃ cs, joinChars [','] ((kv :: rest).map entryText) = DQUOTE :: cs := by
      obtain ⟨cs, hcs⟩ := entryText_eq_cons kv
      cases rest with
      | nil => exact ⟨cs, by simp [joinChars, hcs]⟩
      | cons kv2 rest2 => exact ⟨_, by simp [joinChars, hcs]; rfl⟩
    have hne : ¬ (joinChars [','] ((kv :: rest).map entryText) ++ [RBRACE] = [RBRACE]) := by
      rw [hcs]
      intro h
      have h0 := (List.cons.inj h).1
      revert h0
      decide
    have hfuel : (kv :: rest).length
        ≤ (joinChars [','] ((kv :: rest).map entryText) ++ [RBRACE]).length := by
      have := length_le_joinChars (kv :: rest)
      simp only [List.length_append]
      omega
    have hread := readEntries_joinChars (kv :: rest) (List.cons_ne_nil _ _) _ hfuel []
    simp only [parseFavorites, stringifyFavorites, List.cons_append, if_true, if_neg hne, hread]

/-! ## Helper lemmas: favorites mapping -/

theorem Favorites.get_delete (obj : Favorites) (key k : String) :
    (obj.delete key).get k = if k = key then none else obj.get k := by
  induction obj with
  | nil => simp [Favorites.delete, Favorites.get]
  | cons kv rest ih =>
    obtain ⟨k0, v0⟩ := kv
    unfold Favorites.delete at ih ⊢
    by_cases h0 : k0 = key
    · subst h0
      by_cases hk : k = k0
      · subst hk
        simpa [Favorites.get] using ih
      · have hk' : ¬ k0 = k := fun h => hk h.symm
        simpa [Favorites.get, hk, hk'] using ih
    · by_cases hk : k = key
      · subst hk
        simpa [Favorites.get, h0] using ih
      · by_cases hk0 : k0 = k
        · simp [Favorites.get, h0, hk, hk0]
        · simpa [Favorites.get, h0, hk, hk0] using ih

theorem Favorites.get_replace (obj : Favorites) (key k : String) (value : Artwork) :
    (obj.replace key value).get k
      = if k = key then (if (obj.get key).isSome then some value else none) else obj.get k := by
  induction obj with
  | nil => simp [Favorites.replace, Favorites.get]
  | cons kv rest ih =>
    obtain ⟨k0, v0⟩ := kv
    by_cases h0 : k0 = key
    · subst h0
      by_cases hk : k = k0
      · subst hk; simp [Favorites.replace, Favorites.get]
      · have hk' : ¬ k0 = k := fun h => hk h.symm
        simp [Favorites.replace, Favorites.get, hk, hk']
    · by_cases hk0 : k0 = k
      · subst hk0
        simp [Favorites.replace, Favorites.get, h0]
      · simp [Favorites.replace, Favorites.get, h0, hk0, ih]

theorem Favorites.get_insertNew (obj : Favorites) (key k : String) (value : Artwork)
    (habsent : obj.get key = none) :
    (obj.insertNew key value).get k = if k = key then some value else obj.get k := by
  induction obj with
  | nil =>
    by_cases hk : k = key
    · subst hk; simp [Favorites.insertNew, Favorites.get]
    · have hk' : ¬ key = k := fun h => hk h.symm
      simp [Favorites.insertNew, Favorites.get, hk, hk']
  | cons kv rest ih =>
    obtain ⟨k0, v0⟩ := kv
    have h0 : ¬ k0 = key := by
      intro h
      simp [Favorites.get, h] at habsent
    have hrest : Favorites.get rest key = none := by
      simpa [Favorites.get, h0] using habsent
    unfold Favorites.insertNew
    by_cases hb : listedBefore key k0 = true
    · rw [if_pos hb]
      by_cases hk : k = key
      · subst hk; simp [Favorites.get]
      · have hk' : ¬ key = k := fun h => hk h.symm
        simp [Favorites.get, hk, hk']
    · rw [if_neg hb]
      by_cases hk0 : k0 = k
      · subst hk0
        simp [Favorites.get, h0]
      · simp [Favorites.get, hk0, ih hrest]

theorem Favorites.get_set (obj : Favorites) (key k : String) (value : Artwork) :
    (obj.set key value).get k = if k = key then some value else obj.get k := by
  unfold Favorites.set
  cases hget : obj.get key with
  | none =>
    simp only [Option.isSome_none, Bool.false_eq_true, if_false]
    exact Favorites.get_insertNew obj key k value hget
  | some v =>
    simp only [Option.isSome_some, if_true]
    rw [Favorites.get_replace, hget]
    simp

theorem newFavs_get (favorites : Favorites) (artwork : Artwork) (k : String) :
    (newFavs favorites artwork).get k
      = if k = propertyKey artwork.id then
          (if (favorites.get (propertyKey artwork.id)).isSome then none else some artwork)
        else favorites.get k := by
  unfold newFavs
  by_cases hpresent : (favorites.get (propertyKey artwork.id)).isSome = true
  · rw [if_pos hpresent, if_pos hpresent, Favorites.get_delete]
  · rw [if_neg hpresent, if_neg hpresent, Favorites.get_set]

theorem getItem_setItem (storage : List (String × String)) (key : String) (value : String) :
    getItem (setItem storage key value) key = some value := by
  simp [setItem, getItem]

theorem Favorites.get_eq_none_iff (obj : Favorites) (key : String) :
    obj.get key = none ↔ key ∉ obj.map Prod.fst := by
  induction obj with
  | nil => simp [Favorites.get]
  | cons kv rest ih =>
    obtain ⟨k0, v0⟩ := kv
    by_cases h0 : k0 = key
    · subst h0; simp [Favorites.get]
    · have h0' : ¬ key = k0 := fun h => h0 h.symm
      simp [Favorites.get, h0, h0', ih]

theorem map_fst_replace (obj : Favorites) (key : String) (value : Artwork) :
    (obj.replace key value).map Prod.fst = obj.map Prod.fst := by
  induction obj with
  | nil => rfl
  | cons kv rest ih =>
    obtain ⟨k0, v0⟩ := kv
    unfold Favorites.replace
    by_cases h0 : k0 = key
    · simp [h0]
    · simp [h0, ih]

/-- A key that is listed before `k1` is listed before every key that `k1` is not after. -/
theorem listedBefore_trans (key k1 k2 : String) (h1 : listedBefore key k1 = true)
    (h2 : listedBefore k2 k1 = false) : listedBefore k2 key = false := by
  unfold listedBefore at *
  cases hk : arrayIndex key with
  | none => simp [hk] at h1
  | some n =>
    cases h2k : arrayIndex k2 with
    | none => rfl
    | some m2 =>
      cases h1k : arrayIndex k1 with
      | none => simp [h2k, h1k] at h2
      | some m1 =>
        simp only [hk, h1k, h2k, decide_eq_true_eq, decide_eq_false_iff_not] at h1 h2 ⊢
        omega

theorem listedBefore_asymm (key k : String) (h : listedBefore key k = true) :
    listedBefore k key = false := by
  unfold listedBefore at *
  cases hk : arrayIndex key with
  | none => simp [hk] at h
  | some n =>
    cases h1k : arrayIndex k with
    | none => rfl
    | some m =>
      simp only [hk, h1k, decide_eq_true_eq, decide_eq_false_iff_not] at h ⊢
      omega

theorem isObject_insertNew (obj : Favorites) (key : String) (value : Artwork)
    (hobj : IsObject obj) (habsent : key ∉ obj.map Prod.fst) :
    IsObject (obj.insertNew key value) := by
  induction obj with
  | nil => simp [IsObject, KeysInOrder, Favorites.insertNew]
  | cons kv rest ih =>
    obtain ⟨k0, v0⟩ := kv
    have hk0 : key ≠ k0 := fun h => habsent (by simp [h])
    have hrest : key ∉ rest.map Prod.fst := fun h => habsent (by simp [h])
    unfold IsObject KeysInOrder at hobj ih ⊢
    simp only [List.map_cons, List.pairwise_cons] at hobj
    unfold Favorites.insertNew
    by_cases hb : listedBefore key k0 = true
    · rw [if_pos hb]
      simp only [List.map_cons, List.pairwise_cons]
      refine ⟨?_, hobj⟩
      intro k hk
      rcases List.mem_cons.1 hk with hk | hk
      · subst hk
        exact ⟨hk0, listedBefore_asymm key _ hb⟩
      · exact ⟨fun h => hrest (h ▸ hk), listedBefore_trans key k0 k hb (hobj.1 k hk).2⟩
    · rw [if_neg hb]
      simp only [List.map_cons, List.pairwise_cons]
      refine ⟨?_, ih hobj.2 hrest⟩
      intro k hk
      have hkeys : k = key ∨ k ∈ rest.map Prod.fst := by
        have : ∀ (o : Favorites), k ∈ (o.insertNew key value).map Prod.fst →
            k = key ∨ k ∈ o.map Prod.fst := by
          intro o
          induction o with
          | nil => intro h; simpa [Favorites.insertNew] using h
          | cons kv' o' iho =>
            obtain ⟨k', v'⟩ := kv'
            unfold Favorites.insertNew
            by_cases hb' : listedBefore key k' = true
            · rw [if_pos hb']; intro h; simpa using h
            · rw [if_neg hb']
              intro h
              simp only [List.map_cons, List.mem_cons] at h ⊢
              rcases h with h | h
              · exact Or.inr (Or.inl h)
              · rcases iho h with h | h
                · exact Or.inl h
                · exact Or.inr (Or.inr h)
        exact this rest hk
      rcases hkeys with hkey | hmem
      · subst hkey
        exact ⟨fun h => hk0 h.symm, by simpa using hb⟩
      · exact hobj.1 k hmem

theorem isObject_set (obj : Favorites) (key : String) (value : Artwork) (hobj : IsObject obj) :
    IsObject (obj.set key value) := by
  unfold Favorites.set
  cases hget : obj.get key with
  | none =>
    simp only [Option.isSome_none, Bool.false_eq_true, if_false]
    exact isObject_insertNew obj key value hobj ((Favorites.get_eq_none_iff obj key).1 hget)
  | some v =>
    simp only [Option.isSome_some, if_true]
    unfold IsObject
    rw [map_fst_replace]
    exact hobj

theorem isObject_delete (obj : Favorites) (key : String) (hobj : IsObject obj) :
    IsObject (obj.delete key) := by
  unfold IsObject KeysInOrder at *
  exact hobj.sublist ((List.filter_sublist obj).map Prod.fst)

theorem isObject_newFavs (favorites : Favorites) (artwork : Artwork)
    (hobj : IsObject favorites) : IsObject (newFavs favorites artwork) := by
  unfold newFavs
  by_cases hpresent : (favorites.get (propertyKey artwork.id)).isSome = true
  · simp only [hpresent, if_true]
    exact isObject_delete _ _ hobj
  · simp only [hpresent, if_false]
    exact isObject_set _ _ _ hobj

theorem isObject_fromEntries (entries : List (String × Artwork)) :
    IsObject (fromEntries entries) := by
  have hgen : ∀ (es : List (String × Artwork)) (acc : Favorites), IsObject acc →
      IsObject (es.foldl (fun obj kv => obj.set kv.1 kv.2) acc) := by
    intro es
    induction es with
    | nil => exact fun acc h => h
    | cons kv rest ih => exact fun acc h => ih _ (isObject_set acc kv.1 kv.2 h)
  exact hgen entries [] (by simp [IsObject, KeysInOrder])

theorem insertNew_last (obj : Favorites) (key : String) (value : Artwork)
    (h : ∀ k ∈ obj.map Prod.fst, listedBefore key k = false) :
    obj.insertNew key value = obj ++ [(key, value)] := by
  induction obj with
  | nil => rfl
  | cons kv rest ih =>
    obtain ⟨k0, v0⟩ := kv
    have h0 : listedBefore key k0 = false := h k0 (by simp)
    unfold Favorites.insertNew
    rw [if_neg (by simp [h0])]
    rw [ih (fun k hk => h k (by simp [hk]))]
    rfl

/-- Defining the properties of an object one after the other, in the order in which
the object lists them, builds the same object. -/
theorem fromEntries_of_isObject (obj : Favorites) (hobj : IsObject obj) :
    fromEntries obj = obj := by
  unfold fromEntries
  induction obj using List.reverseRecOn with
  | nil => rfl
  | append_singleton init kv ih =>
    obtain ⟨k, v⟩ := kv
    unfold IsObject KeysInOrder at hobj ih
    rw [List.map_append, List.pairwise_append] at hobj
    obtain ⟨hinit, _, hcross⟩ := hobj
    rw [List.foldl_append, ih hinit]
    simp only [List.foldl_cons, List.foldl_nil]
    have habsent : Favorites.get init k = none := by
      rw [Favorites.get_eq_none_iff]
      intro hmem
      exact (hcross k hmem k (by simp)).1 rfl
    unfold Favorites.set
    rw [habsent]
    simp only [Option.isSome_none, Bool.false_eq_true, if_false]
    exact insertNew_last init k v (fun k0 hk0 => (hcross k0 hk0 k (by simp)).2)

theorem int_toString_injective (a b : Int) (h : toString a = toString b) : a = b := by
  have ha := readInt_toString a [] rfl rfl
  have hb := readInt_toString b [] rfl rfl
  rw [h, hb] at ha
  simpa using ha.symm

theorem propertyKey_injective (a b : ArtworkId) (h : propertyKey a = propertyKey b) : a = b := by
  have hval : a.val = b.val := int_toString_injective _ _ h
  cases a
  cases b
  simp only at hval
  subst hval
  rfl

theorem settleSave_toggleFavorite (s : App) (artwork : Artwork) (writeOk : Bool) :
    settleSave s.saving.length writeOk (toggleFavorite artwork s)
      = saveFavoritesSettle (newFavs s.view.favorites artwork) writeOk s := by
  simp [settleSave, toggleFavorite, saveFavoritesCall, List.eraseIdx_append_of_length_le]

theorem toggle_ok_favorites (s : App) (artwork : Artwork) :
    (settleSave s.saving.length true (toggleFavorite artwork (render s))).favorites
      = newFavs s.favorites artwork := by
  have hlen : s.saving.length = (render s).saving.length := rfl
  rw [hlen, settleSave_toggleFavorite]
  rfl

theorem toggle_ok_get (s : App) (artwork : Artwork) (key : String) :
    (settleSave s.saving.length true (toggleFavorite artwork (render s))).favorites.get key
      = if key = propertyKey artwork.id then
          (if isFavorite (render s) artwork.id then none else some artwork)
        else s.favorites.get key := by
  rw [toggle_ok_favorites, newFavs_get]
  rfl

theorem toggle_ok_isFavorite (s : App) (artwork : Artwork) :
    isFavorite (render (settleSave s.saving.length true (toggleFavorite artwork (render s))))
        artwork.id
      = !isFavorite (render s) artwork.id := by
  show ((settleSave s.saving.length true
      (toggleFavorite artwork (render s))).favorites.get (propertyKey artwork.id)).isSome
    = !isFavorite (render s) artwork.id
  rw [toggle_ok_get]
  cases hfav : isFavorite (render s) artwork.id <;> simp

theorem toggle_ok_saving (s : App) (artwork : Artwork) :
    (settleSave s.saving.length true (toggleFavorite artwork (render s))).saving = s.saving := by
  have hlen : s.saving.length = (render s).saving.length := rfl
  rw [hlen, settleSave_toggleFavorite]
  rfl

theorem parseFavorites_isObject (text : String) (m : Favorites)
    (h : parseFavorites text = some m) : IsObject m := by
  unfold parseFavorites at h
  split at h
  · exact absurd h (by simp)
  · split at h
    · split at h
      · have hm : m = [] := by simpa using h.symm
        rw [hm]
        simp [IsObject, KeysInOrder]
      · split at h
        · rename_i entries _
          have hm : fromEntries entries = m := by simpa using h
          rw [← hm]
          exact isObject_fromEntries _
        · exact absurd h (by simp)
    · exact absurd h (by simp)

/-! ## Helper lemmas: controller -/

theorem settle_fetchArtworksCall (s : App) (n : Nat) (q : String) (res : FetchResult) :
    settle s.pending.length res (fetchArtworksCall n q s)
      = fetchArtworksSettle ⟨n, q, requestUrl n q⟩ res { s with loading := true } := by
  simp [settle, fetchArtworksCall, List.eraseIdx_append_of_length_le]

theorem fetchArtworksSettle_ok_artworks (s : App) (r : Request) (ys : List Artwork) :
    (fetchArtworksSettle r (.ok ys) s).artworks
      = if r.pageNum = 1 then ys else s.artworks ++ ys := rfl

theorem fetchArtworksSettle_ok_page (s : App) (r : Request) (ys : List Artwork) :
    (fetchArtworksSettle r (.ok ys) s).page = r.pageNum := rfl

theorem loadMore_of_view_idle (s : App) (h : s.view.loading = false) :
    loadMore s = fetchArtworksCall (s.view.page + 1) s.view.searchQuery s := by
  simp [loadMore, h]

theorem loadMore_of_view_loading (s : App) (h : s.view.loading = true) : loadMore s = s := by
  simp [loadMore, h]

theorem pagesPositive_fetchArtworksCall (s : App) (n : Nat) (q : String)
    (h : PagesPositive s) (hn : 1 ≤ n) : PagesPositive (fetchArtworksCall n q s) := by
  refine ⟨h.1, h.2.1, fun r hr => ?_⟩
  simp only [fetchArtworksCall, List.mem_append, List.mem_singleton] at hr
  rcases hr with hr | hr
  · exact h.2.2 r hr
  · rw [hr]; exact hn

theorem pagesPositive_applyOp (op : Op) (s : App) (h : PagesPositive s) :
    PagesPositive (applyOp op s) := by
  cases op with
  | initialLoad => exact pagesPositive_fetchArtworksCall s _ _ h (le_refl 1)
  | changeText text => exact h
  | submit => exact pagesPositive_fetchArtworksCall s _ _ h (le_refl 1)
  | search q =>
    exact pagesPositive_fetchArtworksCall (render (onChangeText q s)) _ _
      ⟨h.1, h.1, h.2.2⟩ (le_refl 1)
  | loadMore =>
    show PagesPositive (loadMore s)
    cases hl : s.view.loading
    · rw [loadMore_of_view_idle s hl]
      exact pagesPositive_fetchArtworksCall s _ _ h (Nat.le_add_left 1 s.view.page)
    · rw [loadMore_of_view_loading s hl]
      exact h
  | settle i res =>
    show PagesPositive (settle i res s)
    unfold settle
    cases hget : s.pending.get? i with
    | none => exact h
    | some r =>
      have hr : 1 ≤ r.pageNum := h.2.2 r (List.get?_mem hget)
      have hrest : ∀ r' ∈ s.pending.eraseIdx i, 1 ≤ r'.pageNum :=
        fun r' hr' => h.2.2 r' (List.eraseIdx_subset _ _ hr')
      cases res with
      | ok data => exact ⟨hr, h.2.1, hrest⟩
      | error e => exact ⟨h.1, h.2.1, hrest⟩
  | render => exact ⟨h.1, h.1, h.2.2⟩

/-- In every state reached from the first render the page number is at least 1. -/
theorem page_pos_of_run (ops : List Op) : 1 ≤ (run ops App.initial).page := by
  have hgen : ∀ (ops : List Op) (s : App), PagesPositive s → PagesPositive (run ops s) := by
    intro ops
    induction ops with
    | nil => exact fun s h => h
    | cons op rest ih => exact fun s h => ih _ (pagesPositive_applyOp op s h)
  exact (hgen ops _ ⟨le_refl 1, le_refl 1, fun r hr => absurd hr (List.not_mem_nil r)⟩).1

theorem oneInFlight_fetchArtworksCall (s : App) (n : Nat) (q : String)
    (h : s.pending = []) : OneInFlight (fetchArtworksCall n q s) := by
  simp [OneInFlight, fetchArtworksCall, h]

theorem oneInFlight_settle (s : App) (i : Nat) (res : FetchResult) (h : OneInFlight s) :
    OneInFlight (settle i res s) := by
  unfold settle
  cases hget : s.pending.get? i with
  | none => simpa using h
  | some r =>
    have hlen : (s.pending.eraseIdx i).length = s.pending.length - 1 := by
      have hi : i < s.pending.length := by
        rcases List.get?_eq_some.1 hget with ⟨hi, _⟩
        exact hi
      rw [List.length_eraseIdx]
      simp [hi]
    have hnil : s.pending.eraseIdx i = [] := by
      apply List.eq_nil_of_length_eq_zero
      have := h.1
      omega
    cases res <;> simp [OneInFlight, fetchArtworksSettle, hnil]

theorem oneInFlight_applyOp (op : Op) (s : App) (h : OneInFlight s)
    (hok : (!op.isUnguardedFetch || s.pending.isEmpty) = true)
    (hcur : (!decide (op = Op.loadMore) || decide (s.view.loading = s.loading)) = true) :
    OneInFlight (applyOp op s) := by
  cases op with
  | initialLoad =>
    have hp : s.pending = [] := by simpa [Op.isUnguardedFetch] using hok
    exact oneInFlight_fetchArtworksCall s _ _ hp
  | changeText text => exact h
  | submit =>
    have hp : s.pending = [] := by simpa [Op.isUnguardedFetch] using hok
    exact oneInFlight_fetchArtworksCall s _ _ hp
  | search q =>
    have hp : s.pending = [] := by simpa [Op.isUnguardedFetch] using hok
    exact oneInFlight_fetchArtworksCall (render (onChangeText q s)) _ _ hp
  | loadMore =>
    have hv : s.view.loading = s.loading := by simpa using hcur
    show OneInFlight (loadMore s)
    cases hl : s.view.loading
    · rw [loadMore_of_view_idle s hl]
      exact oneInFlight_fetchArtworksCall s _ _ (h.2 (hv ▸ hl))
    · rw [loadMore_of_view_loading s hl]
      exact h
  | settle i res => exact oneInFlight_settle s i res h
  | render => exact h

theorem oneInFlight_run (ops : List Op) (s : App) (h : OneInFlight s)
    (hseq : oneAtATime ops s = true) (hcur : guardsCurrent ops s = true) :
    OneInFlight (run ops s) := by
  induction ops generalizing s with
  | nil => exact h
  | cons op rest ih =>
    simp only [oneAtATime, Bool.and_eq_true] at hseq
    simp only [guardsCurrent, Bool.and_eq_true] at hcur
    exact ih (applyOp op s) (oneInFlight_applyOp op s h hseq.1 hcur.1) hseq.2 hcur.2

theorem tagStep_fst (op : Op) (s : App) (tagged : List (Artwork × String))
    (h : tagged.map Prod.fst = s.artworks) :
    (tagStep op s tagged).map Prod.fst = (applyOp op s).artworks := by
  cases op with
  | initialLoad => exact h
  | changeText text => exact h
  | submit => exact h
  | search q => exact h
  | render => exact h
  | loadMore =>
    show tagged.map Prod.fst = (loadMore s).artworks
    unfold loadMore
    cases s.view.loading <;> simpa [fetchArtworksCall] using h
  | settle i res =>
    cases hget : s.pending.get? i with
    | none =>
      cases res <;> simpa only [tagStep, applyOp, settle, hget] using h
    | some r =>
      cases res with
      | error e => simpa only [tagStep, applyOp, settle, hget, fetchArtworksSettle] using h
      | ok data =>
        simp only [tagStep, applyOp, settle, hget, fetchArtworksSettle]
        by_cases hr : r.pageNum = 1
        · simp [hr, Function.comp_def]
        · simp [hr, Function.comp_def, h]

theorem runTagged_fst (ops : List Op) (s : App) (tagged : List (Artwork × String))
    (h : tagged.map Prod.fst = s.artworks) :
    (runTagged ops s tagged).map Prod.fst = (run ops s).artworks := by
  induction ops generalizing s tagged with
  | nil => exact h
  | cons op rest ih => exact ih _ _ (tagStep_fst op s tagged h)

theorem mem_eraseIdx_of_ne {α : Type} (l : List α) (i : Nat) (a b : α)
    (hget : l.get? i = some b) (ha : a ∈ l) (hne : a ≠ b) : a ∈ l.eraseIdx i := by
  induction l generalizing i with
  | nil => exact absurd ha (List.not_mem_nil a)
  | cons x rest ih =>
    cases i with
    | zero =>
      simp only [List.get?_cons_zero, Option.some.injEq] at hget
      simp only [List.eraseIdx_cons_zero]
      rcases List.mem_cons.1 ha with hx | hx
      · exact absurd (hx.trans hget) hne
      · exact hx
    | succ j =>
      simp only [List.get?_cons_succ] at hget
      simp only [List.eraseIdx_cons_succ]
      rcases List.mem_cons.1 ha with hx | hx
      · exact List.mem_cons.2 (Or.inl hx)
      · exact List.mem_cons.2 (Or.inr (ih j hget hx))

theorem sessionInv_applyOp (op : Op) (s : App) (tagged : List (Artwork × String))
    (h : SessionInv s tagged) (hop : op.isSearchSession = true)
    (hok : (!op.isUnguardedFetch || s.pending.isEmpty) = true) :
    SessionInv (applyOp op s) (tagStep op s tagged) := by
  obtain ⟨hview, hpage, hvpage, hpend, hitems⟩ := h
  cases op with
  | initialLoad => simp [Op.isSearchSession] at hop
  | changeText text => simp [Op.isSearchSession] at hop
  | submit => simp [Op.isSearchSession] at hop
  | render => exact ⟨rfl, hpage, hpage, hpend, hitems⟩
  | search q =>
    have hp : s.pending = [] := by simpa [Op.isUnguardedFetch] using hok
    refine ⟨rfl, hpage, hpage, ?_, Or.inr ⟨⟨1, q, requestUrl 1 q⟩, ?_, rfl⟩⟩
    · intro r hr
      have hr' : r = ⟨1, q, requestUrl 1 q⟩ := by
        simpa [applyOp, search, onSubmitEditing, onChangeText, render, fetchArtworksCall, hp]
          using hr
      subst hr'
      exact ⟨le_refl 1, rfl⟩
    · simp [applyOp, search, onSubmitEditing, onChangeText, render, fetchArtworksCall, hp]
  | loadMore =>
    show SessionInv (loadMore s) tagged
    cases hl : s.view.loading with
    | true =>
      rw [loadMore_of_view_loading s hl]
      exact ⟨hview, hpage, hvpage, hpend, hitems⟩
    | false =>
      rw [loadMore_of_view_idle s hl]
      refine ⟨hview, hpage, hvpage, ?_, ?_⟩
      · intro r hr
        simp only [fetchArtworksCall, List.mem_append, List.mem_singleton] at hr
        rcases hr with hr | hr
        · exact hpend r hr
        · rw [hr]
          exact ⟨Nat.le_add_left 1 s.view.page, hview⟩
      · rcases hitems with hall | ⟨r, hr, hr1⟩
        · exact Or.inl hall
        · exact Or.inr ⟨r, List.mem_append.2 (Or.inl hr), hr1⟩
  | settle i res =>
    cases res with
    | error e => simp [Op.isSearchSession] at hop
    | ok data =>
      cases hget : s.pending.get? i with
      | none =>
        have hsame : applyOp (Op.settle i (.ok data)) s = s := by
          simp only [applyOp, settle, hget]
        have htag : tagStep (Op.settle i (.ok data)) s tagged = tagged := by
          simp only [tagStep, hget]
        rw [hsame, htag]
        exact ⟨hview, hpage, hvpage, hpend, hitems⟩
      | some r =>
        have hmem : r ∈ s.pending := List.get?_mem hget
        obtain ⟨hr1, hrq⟩ := hpend r hmem
        have hstate : applyOp (Op.settle i (.ok data)) s
            = fetchArtworksSettle r (.ok data) { s with pending := s.pending.eraseIdx i } := by
          simp only [applyOp, settle, hget]
        rw [hstate]
        refine ⟨hview, hr1, hvpage, ?_, ?_⟩
        · intro r' hr'
          exact hpend r' (List.eraseIdx_subset _ _ hr')
        · simp only [tagStep, hget]
          by_cases hone : r.pageNum = 1
          · left
            intro x hx
            simp only [hone, if_true, List.mem_map] at hx
            obtain ⟨a, _, rfl⟩ := hx
            exact hrq
          · rcases hitems with hall | ⟨r0, hr0, hr01⟩
            · left
              intro x hx
              simp only [hone, if_false, List.mem_append, List.mem_map] at hx
              rcases hx with hx | ⟨a, _, rfl⟩
              · exact hall x hx
              · exact hrq
            · right
              refine ⟨r0, ?_, hr01⟩
              have hne : r0 ≠ r := fun heq => hone (heq ▸ hr01)
              exact mem_eraseIdx_of_ne s.pending i r0 r hget hr0 hne

theorem sessionInv_run (ops : List Op) (s : App) (tagged : List (Artwork × String))
    (h : SessionInv s tagged) (hops : ops.all Op.isSearchSession = true)
    (hseq : oneAtATime ops s = true) :
    SessionInv (run ops s) (runTagged ops s tagged) := by
  induction ops generalizing s tagged with
  | nil => exact h
  | cons op rest ih =>
    simp only [oneAtATime, Bool.and_eq_true] at hseq
    simp only [List.all_cons, Bool.and_eq_true] at hops
    exact ih _ _ (sessionInv_applyOp op s tagged h hops.1 hseq.1) hops.2 hseq.2

/-! ## Gallery controller: results -/

/-- C1: from a state that is not loading, with a page number of at least 1 (the range
of `currentPage` in the data model), `loadMore` as the render of that state defines it
issues one fetch call for the next page and the current query; when that call succeeds
with page `ys`, `artworks` is the previous list followed by `ys` and `page` is the
previous page plus one.  After an initial load answering 20 items, a `loadMore`
answering 15 items leaves 35 items and page 2. -/
theorem loadMore_success_appends (s : App) (ys : List Artwork)
    (hloading : s.loading = false) (hpage : 1 ≤ s.page) :
    (loadMore (render s)).pending
        = s.pending ++ [⟨s.page + 1, s.searchQuery, requestUrl (s.page + 1) s.searchQuery⟩] ∧
    (settle s.pending.length (.ok ys) (loadMore (render s))).artworks = s.artworks ++ ys ∧
    (settle s.pending.length (.ok ys) (loadMore (render s))).page = s.page + 1 ∧
    (∀ first second : List Artwork, first.length = 20 → second.length = 15 →
      (settle 0 (.ok first) (initialLoad App.initial)).artworks = first ∧
      (settle 0 (.ok first) (initialLoad App.initial)).page = 1 ∧
      (settle 0 (.ok second)
        (loadMore (render (settle 0 (.ok first) (initialLoad App.initial))))).artworks.length
          = 35 ∧
      (settle 0 (.ok second)
        (loadMore (render (settle 0 (.ok first) (initialLoad App.initial))))).page = 2) := by
  have hcall : loadMore (render s)
      = fetchArtworksCall (s.page + 1) s.searchQuery (render s) :=
    loadMore_of_view_idle (render s) hloading
  have hlen : s.pending.length = (render s).pending.length := rfl
  refine ⟨?_, ?_, ?_, ?_⟩
  · rw [hcall]; rfl
  · rw [hcall, hlen, settle_fetchArtworksCall, fetchArtworksSettle_ok_artworks]
    have : s.page + 1 ≠ 1 := by omega
    simp [this, render]
  · rw [hcall, hlen, settle_fetchArtworksCall, fetchArtworksSettle_ok_page]
  · intro first second h1 h2
    simp [settle, initialLoad, fetchArtworksCall, fetchArtworksSettle, loadMore, render,
      App.initial, App.start, h1, h2]

/-- C1 at `monetPageTwo`: the state is not loading, its page is 2, and a successful
`loadMore` answering one item gives two items and page 3. -/
theorem loadMore_success_appends_witness :
    monetPageTwo.loading = false ∧ 1 ≤ monetPageTwo.page ∧
    (settle 0 (.ok [nighthawks]) (loadMore (render monetPageTwo))).artworks
      = [waterLilies, nighthawks] ∧
    (settle 0 (.ok [nighthawks]) (loadMore (render monetPageTwo))).page = 3 :=
  ⟨rfl, by decide,
   (loadMore_success_appends monetPageTwo [nighthawks] rfl (by decide)).2.1,
   (loadMore_success_appends monetPageTwo [nighthawks] rfl (by decide)).2.2.1⟩

/-- C2: whatever the state, `search q` issues one fetch call for page 1 of `q`; when
that call succeeds with page `ys`, `artworks` is exactly `ys` and `page` is 1.  The
same holds for the answer to any page-1 call in any state `s'`, so nothing that
happened while the call was pending is retained either. -/
theorem search_success_replaces (s : App) (q : String) (ys : List Artwork) :
    (search q s).pending = s.pending ++ [⟨1, q, requestUrl 1 q⟩] ∧
    (search q s).searchQuery = q ∧
    (settle s.pending.length (.ok ys) (search q s)).artworks = ys ∧
    (settle s.pending.length (.ok ys) (search q s)).page = 1 ∧
    (∀ (s' : App) (q' : String) (url : Option String),
      (fetchArtworksSettle ⟨1, q', url⟩ (.ok ys) s').artworks = ys ∧
      (fetchArtworksSettle ⟨1, q', url⟩ (.ok ys) s').page = 1) := by
  refine ⟨rfl, rfl, ?_, ?_, fun s' q' url => ⟨rfl, rfl⟩⟩
  · show (settle (render (onChangeText q s)).pending.length (.ok ys)
      (fetchArtworksCall 1 q (render (onChangeText q s)))).artworks = ys
    rw [settle_fetchArtworksCall]; rfl
  · show (settle (render (onChangeText q s)).pending.length (.ok ys)
      (fetchArtworksCall 1 q (render (onChangeText q s)))).page = 1
    rw [settle_fetchArtworksCall]; rfl

/-- C3: when the answer to a fetch call is a failure (the network call rejects, or the
response cannot be decoded), the alert "Failed to load artworks" is raised exactly
once, `artworks` and `page` keep their values, and `loading` is false afterwards.
This holds for the answer to any pending call `r` in any state, and for the initial
load, a search, and a `loadMore` from a state that is not loading, where `artworks`
and `page` after the failure are those before the call. -/
theorem fetch_failure_alerts_once (s : App) (e : FetchError) :
    (∀ r : Request, FailedFetchOutcome s (fetchArtworksSettle r (.error e) s)) ∧
    FailedFetchOutcome s (settle s.pending.length (.error e) (initialLoad s)) ∧
    (∀ q : String, FailedFetchOutcome s (settle s.pending.length (.error e) (search q s))) ∧
    (s.loading = false →
      FailedFetchOutcome s (settle s.pending.length (.error e) (loadMore (render s)))) := by
  refine ⟨fun r => ⟨rfl, rfl, rfl, rfl⟩, ?_, fun q => ?_, fun h => ?_⟩
  · show FailedFetchOutcome s (settle s.pending.length (.error e) (fetchArtworksCall 1 "" s))
    rw [settle_fetchArtworksCall]
    exact ⟨rfl, rfl, rfl, rfl⟩
  · show FailedFetchOutcome s (settle (render (onChangeText q s)).pending.length (.error e)
      (fetchArtworksCall 1 q (render (onChangeText q s))))
    rw [settle_fetchArtworksCall]
    exact ⟨rfl, rfl, rfl, rfl⟩
  · have hcall : loadMore (render s)
        = fetchArtworksCall (s.page + 1) s.searchQuery (render s) :=
      loadMore_of_view_idle (render s) h
    have hlen : s.pending.length = (render s).pending.length := rfl
    rw [hcall, hlen, settle_fetchArtworksCall]
    exact ⟨rfl, rfl, rfl, rfl⟩

/-- C3 at `monetPageTwo`: the state is not loading, and a `loadMore` whose network call
rejects leaves the one item, page 2 and one alert. -/
theorem fetch_failure_alerts_once_witness :
    monetPageTwo.loading = false ∧
    FailedFetchOutcome monetPageTwo
      (settle monetPageTwo.pending.length (.error .networkRejected)
        (loadMore (render monetPageTwo))) :=
  ⟨rfl, (fetch_failure_alerts_once monetPageTwo .networkRejected).2.2.2 rfl⟩

/-- C4, as stated, fails: after the initial load and a search submitted while it is
pending, two fetch calls are in flight; and after a search, a `loadMore` called from
the render that submitted the search still reads `loading` as false and starts a
second call. -/
theorem two_calls_in_flight :
    ¬ (run [Op.initialLoad, Op.render, Op.search "monet"] App.initial).pending.length ≤ 1 ∧
    ¬ (run [Op.search "monet", Op.loadMore] App.initial).pending.length ≤ 1 := by
  decide

/-- C4, amended: `loadMore` called from a render in which `loading` is true leaves the
state unchanged and issues no call; `search q` followed by a re-render and `loadMore`
issues the call of the search and no second one; and along every run from the first
render in which the initial load and the searches are started while no call is pending
and `loadMore` is called from a render that shows the current `loading`, at most one
call is in flight. -/
theorem at_most_one_call_when_searches_wait (ops : List Op)
    (hseq : oneAtATime ops App.initial = true)
    (hcur : guardsCurrent ops App.initial = true) :
    (run ops App.initial).pending.length ≤ 1 ∧
    (∀ s : App, s.view.loading = true → loadMore s = s) ∧
    (∀ (s : App) (q : String), loadMore (render (search q s)) = render (search q s) ∧
      (render (search q s)).pending = s.pending ++ [⟨1, q, requestUrl 1 q⟩]) := by
  refine ⟨?_, ?_, ?_⟩
  · exact (oneInFlight_run ops _ ⟨by simp [App.initial, App.start], fun _ => rfl⟩ hseq hcur).1
  · exact loadMore_of_view_loading
  · intro s q
    exact ⟨rfl, rfl⟩

/-- C4 amended, on a run: initial load, its answer, a search, a suppressed `loadMore`,
the answer to the search, a `loadMore`, each after a re-render. -/
theorem at_most_one_call_when_searches_wait_witness :
    oneAtATime [Op.initialLoad, Op.render, Op.settle 0 (.ok []), Op.render,
      Op.search "monet", Op.render, Op.loadMore, Op.settle 0 (.error .undecodable),
      Op.render, Op.loadMore] App.initial = true ∧
    guardsCurrent [Op.initialLoad, Op.render, Op.settle 0 (.ok []), Op.render,
      Op.search "monet", Op.render, Op.loadMore, Op.settle 0 (.error .undecodable),
      Op.render, Op.loadMore] App.initial = true ∧
    (run [Op.initialLoad, Op.render, Op.settle 0 (.ok []), Op.render,
      Op.search "monet", Op.render, Op.loadMore, Op.settle 0 (.error .undecodable),
      Op.render, Op.loadMore] App.initial).pending.length ≤ 1 :=
  ⟨by decide, by decide,
   (at_most_one_call_when_searches_wait
    [Op.initialLoad, Op.render, Op.settle 0 (.ok []), Op.render,
      Op.search "monet", Op.render, Op.loadMore, Op.settle 0 (.error .undecodable),
      Op.render, Op.loadMore] (by decide) (by decide)).1⟩

/-- C10, as stated, fails: after the initial load is answered, typing "monet" without
submitting and scrolling to the end appends a page fetched for "monet" to the items
fetched for the empty query; no call is pending, and `artworks` holds items of two
different queries, one of them not the current query. -/
theorem items_mix_two_queries :
    (run typedThenScrolled App.initial).pending = [] ∧
    (run typedThenScrolled App.initial).artworks = [nighthawks, waterLilies] ∧
    runTagged typedThenScrolled App.initial []
      = [(nighthawks, ""), (waterLilies, "monet")] ∧
    ¬ (∀ x ∈ runTagged typedThenScrolled App.initial [],
        x.2 = (run typedThenScrolled App.initial).searchQuery) := by
  refine ⟨by decide, by decide, by decide, ?_⟩
  intro h
  have := h (nighthawks, "") (by decide)
  revert this
  decide

/-- C10, amended: along every run from the first render made of searches (the text
changed and submitted in one go), `loadMore` calls, successful answers and re-renders,
in which a search is submitted only while no call is pending, the provenance
bookkeeping lists exactly the elements of `artworks`, and whenever no call is pending
every element of `artworks` was returned by a call issued for the current query.  The
answer to a page-1 call replaces `artworks` by the returned page, the answer to a later
page appends it, and changing the search text leaves `artworks` as it is. -/
theorem items_of_current_query_in_search_session (ops : List Op)
    (hops : ops.all Op.isSearchSession = true)
    (hseq : oneAtATime ops App.initial = true) :
    (runTagged ops App.initial []).map Prod.fst = (run ops App.initial).artworks ∧
    ((run ops App.initial).pending = [] →
      ∀ x ∈ runTagged ops App.initial [], x.2 = (run ops App.initial).searchQuery) ∧
    (∀ (s : App) (r : Request) (ys : List Artwork),
      (fetchArtworksSettle r (.ok ys) s).artworks
        = if r.pageNum = 1 then ys else s.artworks ++ ys) ∧
    (∀ (s : App) (text : String), (onChangeText text s).artworks = s.artworks) := by
  have hinit : SessionInv App.initial [] := by
    refine ⟨rfl, le_refl 1, le_refl 1, ?_, Or.inl ?_⟩
    · intro r hr
      exact absurd hr (List.not_mem_nil r)
    · intro x hx
      exact absurd hx (List.not_mem_nil x)
  have hinv := sessionInv_run ops _ [] hinit hops hseq
  refine ⟨runTagged_fst ops _ [] rfl, ?_, fun s r ys => rfl, fun s text => rfl⟩
  intro hnil
  rcases hinv.2.2.2.2 with hall | ⟨r, hr, _⟩
  · exact hall
  · rw [hnil] at hr
    exact absurd hr (List.not_mem_nil r)

/-- C10 amended, on `monetSession`: both items come from calls for "monet". -/
theorem items_of_current_query_in_search_session_witness :
    monetSession.all Op.isSearchSession = true ∧
    oneAtATime monetSession App.initial = true ∧
    ((run monetSession App.initial).pending = [] →
      ∀ x ∈ runTagged monetSession App.initial [],
        x.2 = (run monetSession App.initial).searchQuery) :=
  ⟨by decide, by decide,
   (items_of_current_query_in_search_session monetSession (by decide) (by decide)).2.1⟩

/-! ## Favorites store: results -/

/-- C5, as stated, fails: on empty favorites, a toggle of artwork 7 whose write fails
leaves `isFavorite(7)` false, which is its value before and not the negation. -/
theorem failed_write_keeps_memory :
    ¬ (isFavorite (render (settleSave 0 false (toggleFavorite sevenNow (render App.initial))))
        sevenNow.id
      = !isFavorite (render App.initial) sevenNow.id) := by
  decide

/-- C5, amended: when the persistence write fails during `toggleFavorite`, no alert is
raised (the failure goes to the console as one warning), and the in-memory mapping,
the stored text and `isFavorite` of every id are what they were before the toggle. -/
theorem failed_write_not_surfaced (s : App) (artwork : Artwork) :
    (settleSave s.saving.length false (toggleFavorite artwork (render s))).alerts = s.alerts ∧
    (settleSave s.saving.length false (toggleFavorite artwork (render s))).warnings
      = s.warnings ++ ["Failed to save favorites"] ∧
    (settleSave s.saving.length false (toggleFavorite artwork (render s))).favorites
      = s.favorites ∧
    (settleSave s.saving.length false (toggleFavorite artwork (render s))).storage
      = s.storage ∧
    (∀ id : ArtworkId,
      isFavorite (render (settleSave s.saving.length false
        (toggleFavorite artwork (render s)))) id = isFavorite (render s) id) := by
  have hlen : s.saving.length = (render s).saving.length := rfl
  rw [hlen, settleSave_toggleFavorite]
  exact ⟨rfl, rfl, rfl, rfl, fun _ => rfl⟩

/-- C6: when the persistence write succeeds, `toggleFavorite` removes the key of the
artwork if it is present and otherwise adds it with the artwork itself as snapshot;
every other key keeps its presence and its snapshot, and `isFavorite` of every other
id is unchanged; `isFavorite` of the artwork is negated; no alert is raised; and the
text stored under "@favorites" is the rendering of the resulting in-memory mapping. -/
theorem toggle_success_flips_key (s : App) (artwork : Artwork) :
    (settleSave s.saving.length true (toggleFavorite artwork (render s))).favorites
      = (if isFavorite (render s) artwork.id then s.favorites.delete (propertyKey artwork.id)
         else s.favorites.set (propertyKey artwork.id) artwork) ∧
    (∀ key : String,
      (settleSave s.saving.length true (toggleFavorite artwork (render s))).favorites.get key
      = if key = propertyKey artwork.id then
          (if isFavorite (render s) artwork.id then none else some artwork)
        else s.favorites.get key) ∧
    isFavorite (render (settleSave s.saving.length true (toggleFavorite artwork (render s))))
        artwork.id
      = !isFavorite (render s) artwork.id ∧
    (∀ id : ArtworkId, id ≠ artwork.id →
      isFavorite (render (settleSave s.saving.length true
        (toggleFavorite artwork (render s)))) id = isFavorite (render s) id) ∧
    (settleSave s.saving.length true (toggleFavorite artwork (render s))).alerts = s.alerts ∧
    getItem (settleSave s.saving.length true (toggleFavorite artwork (render s))).storage
        "@favorites"
      = some (stringifyFavorites
          (settleSave s.saving.length true (toggleFavorite artwork (render s))).favorites) := by
  refine ⟨?_, toggle_ok_get s artwork, toggle_ok_isFavorite s artwork, ?_, ?_, ?_⟩
  · rw [toggle_ok_favorites]
    rfl
  · intro id hid
    show ((settleSave s.saving.length true
        (toggleFavorite artwork (render s))).favorites.get (propertyKey id)).isSome
      = (s.favorites.get (propertyKey id)).isSome
    rw [toggle_ok_get]
    have hkey : ¬ propertyKey id = propertyKey artwork.id :=
      fun h => hid (propertyKey_injective _ _ h)
    rw [if_neg hkey]
  · have hlen : s.saving.length = (render s).saving.length := rfl
    rw [hlen, settleSave_toggleFavorite]
    rfl
  · have hlen : s.saving.length = (render s).saving.length := rfl
    rw [hlen, settleSave_toggleFavorite]
    exact getItem_setItem _ _ _

/-- C6 at empty favorites: artwork 7 is not a favorite, artwork 111628 is another id,
and after the toggle of artwork 7 it is still not a favorite. -/
theorem toggle_success_flips_key_witness :
    nighthawks.id ≠ sevenNow.id ∧
    isFavorite (render (settleSave App.initial.saving.length true
        (toggleFavorite sevenNow (render App.initial)))) nighthawks.id
      = isFavorite (render App.initial) nighthawks.id :=
  ⟨by decide, (toggle_success_flips_key App.initial sevenNow).2.2.2.1 nighthawks.id (by decide)⟩

/-- C7, as stated, fails.  When the mapping holds an older snapshot of artwork 7,
toggling the artwork as the catalog returns it now twice, each toggle after the write
of the one before and a re-render, both writes succeeding, leaves the newer snapshot
under key 7, not the mapping of before.  And on empty favorites, two toggles of
artwork 7 pressed before the first write completes both add it: with both writes
succeeding `isFavorite(7)` ends true, not false as before. -/
theorem double_toggle_changes_snapshot :
    ¬ (∀ key : String,
        (settleSave 0 true (toggleFavorite sevenNow (render
          (settleSave 0 true (toggleFavorite sevenNow (render staleFavorite)))))).favorites.get
            key
        = staleFavorite.favorites.get key) ∧
    ¬ (isFavorite (render (settleSave 0 true (settleSave 0 true
          (toggleFavorite sevenNow (toggleFavorite sevenNow (render App.initial))))))
        sevenNow.id
      = isFavorite (render App.initial) sevenNow.id) := by
  refine ⟨?_, by decide⟩
  intro h
  have := h "7"
  revert this
  decide

/-- C7, amended: when both persistence writes succeed and the second toggle is pressed
after the first write has completed and the component has re-rendered, two toggles of
the same artwork leave `isFavorite` of its id as before and every other key with its
presence and snapshot; the key of the artwork, if it was present, now holds the
artwork toggled as its snapshot.  So the mapping has the content of before when the
key was absent or already held that artwork.  On empty favorites, a toggle of an
artwork with id 7 makes `isFavorite(7)` true and a second such toggle makes it false. -/
theorem double_toggle_restores_membership (s : App) (artwork : Artwork) :
    isFavorite (render (settleSave s.saving.length true (toggleFavorite artwork (render
        (settleSave s.saving.length true (toggleFavorite artwork (render s)))))))
        artwork.id = isFavorite (render s) artwork.id ∧
    (∀ key : String,
      (settleSave s.saving.length true (toggleFavorite artwork (render
        (settleSave s.saving.length true (toggleFavorite artwork (render s)))))).favorites.get
          key
        = if key = propertyKey artwork.id then
            (if isFavorite (render s) artwork.id then some artwork else none)
          else s.favorites.get key) ∧
    ((s.favorites.get (propertyKey artwork.id) = none ∨
        s.favorites.get (propertyKey artwork.id) = some artwork) →
      ∀ key : String,
        (settleSave s.saving.length true (toggleFavorite artwork (render
          (settleSave s.saving.length true
            (toggleFavorite artwork (render s)))))).favorites.get key
          = s.favorites.get key) ∧
    isFavorite (render (settleSave s.saving.length true
        (toggleFavorite { artwork with id := ⟨7, by decide⟩ }
          (render { s with favorites := [] })))) ⟨7, by decide⟩ = true ∧
    isFavorite (render (settleSave s.saving.length true
        (toggleFavorite { artwork with id := ⟨7, by decide⟩ } (render
          (settleSave s.saving.length true
            (toggleFavorite { artwork with id := ⟨7, by decide⟩ }
              (render { s with favorites := [] }))))))) ⟨7, by decide⟩ = false := by
  have hflip := fun t : App => toggle_ok_isFavorite t artwork
  have hsav := toggle_ok_saving s artwork
  have hget : ∀ key : String,
      (settleSave s.saving.length true (toggleFavorite artwork (render
        (settleSave s.saving.length true (toggleFavorite artwork (render s)))))).favorites.get
          key
        = if key = propertyKey artwork.id then
            (if isFavorite (render s) artwork.id then some artwork else none)
          else s.favorites.get key := by
    intro key
    have h2 := toggle_ok_get
      (settleSave s.saving.length true (toggleFavorite artwork (render s))) artwork key
    rw [hsav] at h2
    rw [h2, hflip s, toggle_ok_get]
    by_cases hk : key = propertyKey artwork.id
    · cases hfav : isFavorite (render s) artwork.id <;> simp [hk]
    · simp [hk]
  have hmem : ∀ (t : App) (a : Artwork),
      isFavorite (render (settleSave t.saving.length true (toggleFavorite a (render
        (settleSave t.saving.length true (toggleFavorite a (render t))))))) a.id
        = isFavorite (render t) a.id := by
    intro t a
    have h1 := toggle_ok_isFavorite t a
    have h2 := toggle_ok_isFavorite
      (settleSave t.saving.length true (toggleFavorite a (render t))) a
    rw [toggle_ok_saving t a] at h2
    rw [h2, h1, Bool.not_not]
  refine ⟨hmem s artwork, hget, ?_, ?_, ?_⟩
  · intro hsame key
    rw [hget key]
    by_cases hk : key = propertyKey artwork.id
    · subst hk
      rcases hsame with hnone | hsome
      · simp [isFavorite, render, hnone]
      · simp [isFavorite, render, hsome]
    · simp [hk]
  · have h1 := toggle_ok_isFavorite { s with favorites := [] }
      { artwork with id := ⟨7, by decide⟩ }
    exact h1
  · have h2 := hmem { s with favorites := [] } { artwork with id := ⟨7, by decide⟩ }
    exact h2

/-- C7 amended, at empty favorites and `sevenNow`: the key is absent, and two toggles in
sequence give back a mapping with the same content. -/
theorem double_toggle_restores_membership_witness :
    (App.initial.favorites.get (propertyKey sevenNow.id) = none ∨
      App.initial.favorites.get (propertyKey sevenNow.id) = some sevenNow) ∧
    ∀ key : String,
      (settleSave App.initial.saving.length true (toggleFavorite sevenNow (render
        (settleSave App.initial.saving.length true
          (toggleFavorite sevenNow (render App.initial)))))).favorites.get key
      = App.initial.favorites.get key :=
  ⟨Or.inl rfl, (double_toggle_restores_membership App.initial sevenNow).2.2.1 (Or.inl rfl)⟩

/-- C9: when the write of a toggle succeeds, a fresh process (in-memory favorites empty,
same storage) whose `loadFavorites` reads "@favorites" gets, without a warning, a
mapping identical to the one the toggle left in memory: the same keys in the same
order, each with the same snapshot.  The mapping before the toggle is a JavaScript
object (its keys in the order in which JavaScript lists them), as is every mapping
that the component builds. -/
theorem favorites_reload_roundtrip (s : App) (artwork : Artwork)
    (hobj : IsObject s.favorites) :
    (App.start (settleSave s.saving.length true
      (toggleFavorite artwork (render s))).storage).favorites = [] ∧
    (loadFavorites true (App.start (settleSave s.saving.length true
      (toggleFavorite artwork (render s))).storage)).favorites
      = (settleSave s.saving.length true (toggleFavorite artwork (render s))).favorites ∧
    (∀ key : String,
      (loadFavorites true (App.start (settleSave s.saving.length true
        (toggleFavorite artwork (render s))).storage)).favorites.get key
      = (settleSave s.saving.length true (toggleFavorite artwork (render s))).favorites.get
          key) ∧
    (loadFavorites true (App.start (settleSave s.saving.length true
      (toggleFavorite artwork (render s))).storage)).warnings = [] ∧
    IsObject (settleSave s.saving.length true (toggleFavorite artwork (render s))).favorites := by
  have hfav := toggle_ok_favorites s artwork
  have hnew : IsObject (newFavs s.favorites artwork) := isObject_newFavs _ _ hobj
  have hstored : getItem (App.start (settleSave s.saving.length true
      (toggleFavorite artwork (render s))).storage).storage "@favorites"
      = some (stringifyFavorites (newFavs s.favorites artwork)) := by
    have hlen : s.saving.length = (render s).saving.length := rfl
    rw [hlen, settleSave_toggleFavorite]
    exact getItem_setItem _ _ _
  have hparse : parseFavorites (stringifyFavorites (newFavs s.favorites artwork))
      = some (newFavs s.favorites artwork) := by
    rw [parseFavorites_stringifyFavorites, fromEntries_of_isObject _ hnew]
  have hload : (loadFavorites true (App.start (settleSave s.saving.length true
      (toggleFavorite artwork (render s))).storage)).favorites
      = (settleSave s.saving.length true (toggleFavorite artwork (render s))).favorites := by
    rw [hfav]
    simp only [loadFavorites, if_true, hstored, hparse]
  refine ⟨rfl, hload, fun key => by rw [hload], ?_, by rw [hfav]; exact hnew⟩
  simp only [loadFavorites, if_true, hstored, hparse]
  rfl

/-- C9 at `staleFavorite`: its mapping is an object, artwork 111628 is added after key
7, and the fresh process reloads both favorites. -/
theorem favorites_reload_roundtrip_witness :
    IsObject staleFavorite.favorites ∧
    (loadFavorites true (App.start (settleSave staleFavorite.saving.length true
      (toggleFavorite nighthawks (render staleFavorite))).storage)).favorites
      = (settleSave staleFavorite.saving.length true
          (toggleFavorite nighthawks (render staleFavorite))).favorites :=
  ⟨by simp [IsObject, KeysInOrder, staleFavorite, render],
   (favorites_reload_roundtrip staleFavorite nighthawks
      (by simp [IsObject, KeysInOrder, staleFavorite, render])).2.1⟩

/-! ## Catalog request: results -/

theorem isTrimmable_eq (c : Char) :
    isTrimmable c = decide (c.toNat ∈ Interface.whitespaceCodes) := by
  unfold isTrimmable Interface.whitespaceCodes
  generalize c.toNat = n
  rw [Bool.eq_iff_iff]
  simp only [Bool.or_eq_true, Bool.and_eq_true, decide_eq_true_eq, List.mem_cons,
    List.mem_singleton, List.not_mem_nil, or_false]
  omega

theorem dropWhile_eq_nil_iff_all (p : Char → Bool) (l : List Char) :
    l.dropWhile p = [] ↔ l.all p = true := by
  induction l with
  | nil => simp
  | cons c cs ih =>
    cases hp : p c
    · simp [List.dropWhile, hp]
    · simp [List.dropWhile, hp, ih]

theorem string_eq_empty_iff (s : String) : s = "" ↔ s.data = [] := by
  constructor
  · intro h; rw [h]
  · intro h; cases s; simp only at h; rw [h]

theorem trim_eq_empty_iff (q : String) : trim q = "" ↔ Interface.isBlank q = true := by
  have hblank : Interface.isBlank q = q.data.all isTrimmable := by
    unfold Interface.isBlank
    congr 1
    funext c
    exact (isTrimmable_eq c).symm
  rw [hblank, ← dropWhile_eq_nil_iff_all, string_eq_empty_iff]
  unfold trim
  simp only [List.reverse_eq_nil_iff]
  constructor
  · intro h
    by_contra hne
    have hall : (q.data.dropWhile isTrimmable).reverse.all isTrimmable = true :=
      (dropWhile_eq_nil_iff_all _ _).1 h
    cases hd : q.data.dropWhile isTrimmable with
    | nil => exact hne hd
    | cons c cs =>
      have hc : isTrimmable c = false := by
        have := List.head_dropWhile_not isTrimmable q.data (by rw [hd]; simp)
        simpa [hd] using this
      rw [hd] at hall
      simp only [List.all_reverse, List.all_cons, Bool.and_eq_true] at hall
      rw [hc] at hall
      exact absurd hall.1 (by simp)
  · intro h
    rw [h]
    rfl

theorem length_pos_iff_ne_empty (s : String) : s.length > 0 ↔ ¬ s = "" := by
  cases s with
  | mk data =>
    cases data with
    | nil => exact ⟨fun h => absurd h (Nat.lt_irrefl 0), fun h => absurd rfl h⟩
    | cons c cs =>
      refine ⟨fun _ h => ?_, fun _ => Nat.succ_pos _⟩
      have := congrArg String.data h
      simp at this

theorem getD_mem_or_default {α : Type} (l : List α) (n : Nat) (d : α) :
    l.getD n d ∈ l ∨ l.getD n d = d := by
  induction l generalizing n with
  | nil => right; rfl
  | cons a rest ih =>
    cases n with
    | zero => left; simp
    | succ m =>
      rcases ih m with h | h
      · left; simpa using Or.inr h
      · right; simpa using h

theorem hexUpper_mem (d : Nat) : hexUpper d ∈ "0123456789ABCDEF".data := by
  rcases getD_mem_or_default "0123456789ABCDEF".data d '0' with h | h
  · exact h
  · unfold hexUpper
    rw [h]
    decide

/-- Characters that `encodeURIComponent` can produce. -/
theorem encodeURIComponent_chars (text : String) (x : Char)
    (hx : x ∈ (encodeURIComponent text).data) :
    isUriUnreserved x = true ∨ x = '%' ∨ x ∈ "0123456789ABCDEF".data := by
  simp only [encodeURIComponent, List.mem_flatMap] at hx
  obtain ⟨c, _, hxc⟩ := hx
  unfold encodeChar at hxc
  by_cases hc : isUriUnreserved c = true
  · rw [if_pos hc, List.mem_singleton] at hxc
    subst hxc
    exact Or.inl hc
  · rw [if_neg hc, List.mem_flatMap] at hxc
    obtain ⟨b, _, hxb⟩ := hxc
    simp only [percentEscape, List.mem_cons, List.mem_singleton] at hxb
    rcases hxb with h | h | h | h
    · exact Or.inr (Or.inl h)
    · rw [h]; exact Or.inr (Or.inr (hexUpper_mem _))
    · rw [h]; exact Or.inr (Or.inr (hexUpper_mem _))
    · exact absurd h (List.not_mem_nil x)

theorem char_toNat_valid (c : Char) :
    c.toNat < 0xD800 ∨ (0xDFFF < c.toNat ∧ c.toNat < 0x110000) := c.valid

theorem isUriUnreserved_ascii (c : Char) (h : isUriUnreserved c = true) :
    c.toNat < 0x80 ∧ c ≠ '%' := by
  refine ⟨?_, ?_⟩
  · unfold isUriUnreserved at h
    simp only [Bool.or_eq_true, Bool.and_eq_true, decide_eq_true_eq] at h
    omega
  · intro hc
    rw [hc] at h
    revert h
    decide

theorem percentDecode_cons (c : Char) (rest : List Char) :
    Interface.percentDecode (c :: rest) =
      if c = '%' then
        match rest with
        | h :: l :: rest2 =>
          match hexValue h, hexValue l with
          | some a, some b => (Interface.percentDecode rest2).map fun bs => (16 * a + b) :: bs
          | _, _ => none
        | _ => none
      else if c.toNat < 0x80 then (Interface.percentDecode rest).map fun bs => c.toNat :: bs
      else none := by
  rw [Interface.percentDecode.eq_def]

theorem percentDecode_escapes (bytes : List Nat) (hbytes : ∀ b ∈ bytes, b < 256)
    (tail : List Char) (bs : List Nat) (h : Interface.percentDecode tail = some bs) :
    Interface.percentDecode (bytes.flatMap percentEscape ++ tail) = some (bytes ++ bs) := by
  induction bytes with
  | nil => simpa using h
  | cons b rest ih =>
    have hb : b < 256 := hbytes b (by simp)
    have hrest := ih (fun x hx => hbytes x (by simp [hx]))
    have hhi := hexValue_hexUpper (b / 16) (by omega)
    have hlo := hexValue_hexUpper (b % 16) (Nat.mod_lt _ (by decide))
    simp only [List.flatMap_cons, percentEscape, List.cons_append, List.nil_append,
      List.append_assoc]
    rw [percentDecode_cons]
    simp only [if_true, hhi, hlo]
    rw [hrest]
    simp only [Option.map_some', List.cons_append]
    congr 2
    omega

theorem utf8Bytes_lt (c : Char) : ∀ b ∈ utf8Bytes c, b < 256 := by
  have hv := char_toNat_valid c
  intro b hb
  unfold utf8Bytes at hb
  simp only at hb
  split at hb
  · simp only [List.mem_singleton] at hb; omega
  · split at hb
    · simp only [List.mem_cons, List.mem_singleton, List.not_mem_nil, or_false] at hb; omega
    · split at hb
      · simp only [List.mem_cons, List.mem_singleton, List.not_mem_nil, or_false] at hb; omega
      · simp only [List.mem_cons, List.mem_singleton, List.not_mem_nil, or_false] at hb; omega

theorem percentDecode_encodeChar (c : Char) (tail : List Char) (bs : List Nat)
    (h : Interface.percentDecode tail = some bs) :
    Interface.percentDecode (encodeChar c ++ tail) = some (utf8Bytes c ++ bs) := by
  unfold encodeChar
  by_cases hc : isUriUnreserved c = true
  · obtain ⟨hascii, hpct⟩ := isUriUnreserved_ascii c hc
    rw [if_pos hc]
    simp only [List.singleton_append]
    rw [percentDecode_cons, if_neg hpct, if_pos hascii, h]
    simp [utf8Bytes, hascii]
  · rw [if_neg hc]
    exact percentDecode_escapes _ (utf8Bytes_lt c) tail bs h

theorem percentDecode_encode (cs : List Char) :
    Interface.percentDecode (cs.flatMap encodeChar) = some (cs.flatMap utf8Bytes) := by
  induction cs with
  | nil => rfl
  | cons c rest ih =>
    simp only [List.flatMap_cons]
    exact percentDecode_encodeChar c _ _ ih

theorem isContinuation_of_mod (m : Nat) (h : m < 0x40) :
    Interface.isContinuation (0x80 + m) = true := by
  simp only [Interface.isContinuation, Bool.and_eq_true, decide_eq_true_eq]
  omega

theorem decodeOne_utf8Bytes (c : Char) (bs : List Nat) :
    Interface.decodeOne (utf8Bytes c ++ bs) = some (c, bs) := by
  have hv := char_toNat_valid c
  have hc : Char.ofNat c.toNat = c := Char.ofNat_toNat c
  generalize hn : c.toNat = n at hv hc
  unfold utf8Bytes
  simp only [hn]
  by_cases h1 : n < 0x80
  · rw [if_pos h1]
    simp only [List.singleton_append, Interface.decodeOne]
    rw [if_pos h1, hc]
  · rw [if_neg h1]
    by_cases h2 : n < 0x800
    · rw [if_pos h2]
      simp only [List.cons_append, List.nil_append, Interface.decodeOne]
      have e0 : ¬ (0xC0 + n / 0x40 < 0x80) := by omega
      have e1 : ¬ (0xC0 + n / 0x40 < 0xC0) := by omega
      have e2 : 0xC0 + n / 0x40 < 0xE0 := by omega
      have hval : (0xC0 + n / 0x40 - 0xC0) * 0x40 + (0x80 + n % 0x40 - 0x80) = n := by omega
      rw [if_neg e0, if_neg e1, if_pos e2]
      simp only [hval]
      rw [if_pos ⟨isContinuation_of_mod _ (Nat.mod_lt _ (by decide)), by omega⟩, hc]
    · rw [if_neg h2]
      by_cases h3 : n < 0x10000
      · rw [if_pos h3]
        simp only [List.cons_append, List.nil_append, Interface.decodeOne]
        have e0 : ¬ (0xE0 + n / 0x1000 < 0x80) := by omega
        have e1 : ¬ (0xE0 + n / 0x1000 < 0xC0) := by omega
        have e2 : ¬ (0xE0 + n / 0x1000 < 0xE0) := by omega
        have e3 : 0xE0 + n / 0x1000 < 0xF0 := by omega
        have hval : ((0xE0 + n / 0x1000 - 0xE0) * 0x40 + (0x80 + n / 0x40 % 0x40 - 0x80))
            * 0x40 + (0x80 + n % 0x40 - 0x80) = n := by omega
        rw [if_neg e0, if_neg e1, if_neg e2, if_pos e3]
        simp only [hval]
        rw [if_pos ⟨isContinuation_of_mod _ (Nat.mod_lt _ (by decide)),
          isContinuation_of_mod _ (Nat.mod_lt _ (by decide)), by omega, by omega⟩, hc]
      · rw [if_neg h3]
        simp only [List.cons_append, List.nil_append, Interface.decodeOne]
        have e0 : ¬ (0xF0 + n / 0x40000 < 0x80) := by omega
        have e1 : ¬ (0xF0 + n / 0x40000 < 0xC0) := by omega
        have e2 : ¬ (0xF0 + n / 0x40000 < 0xE0) := by omega
        have e3 : ¬ (0xF0 + n / 0x40000 < 0xF0) := by omega
        have e4 : 0xF0 + n / 0x40000 < 0xF8 := by omega
        have hval : (((0xF0 + n / 0x40000 - 0xF0) * 0x40
            + (0x80 + n / 0x1000 % 0x40 - 0x80)) * 0x40 + (0x80 + n / 0x40 % 0x40 - 0x80))
            * 0x40 + (0x80 + n % 0x40 - 0x80) = n := by omega
        rw [if_neg e0, if_neg e1, if_neg e2, if_neg e3, if_pos e4]
        simp only [hval]
        rw [if_pos ⟨isContinuation_of_mod _ (Nat.mod_lt _ (by decide)),
          isContinuation_of_mod _ (Nat.mod_lt _ (by decide)),
          isContinuation_of_mod _ (Nat.mod_lt _ (by decide)), by omega, by omega⟩, hc]

theorem utf8Bytes_eq_cons (c : Char) : ∃ b bs, utf8Bytes c = b :: bs := by
  unfold utf8Bytes
  simp only
  split
  · exact ⟨_, _, rfl⟩
  · split
    · exact ⟨_, _, rfl⟩
    · split
      · exact ⟨_, _, rfl⟩
      · exact ⟨_, _, rfl⟩

theorem utf8DecodeLoop_flatMap (cs : List Char) (fuel : Nat) (hfuel : cs.length ≤ fuel) :
    Interface.utf8DecodeLoop fuel (cs.flatMap utf8Bytes) = some cs := by
  induction cs generalizing fuel with
  | nil => cases fuel <;> rfl
  | cons c rest ih =>
    cases fuel with
    | zero => simp at hfuel
    | succ f =>
      have hlen : rest.length ≤ f := by
        simp only [List.length_cons] at hfuel
        omega
      obtain ⟨b, bs, hb⟩ := utf8Bytes_eq_cons c
      have hone := decodeOne_utf8Bytes c (rest.flatMap utf8Bytes)
      simp only [List.flatMap_cons]
      rw [hb] at hone ⊢
      simp only [List.cons_append] at hone ⊢
      simp only [Interface.utf8DecodeLoop, hone, ih f hlen, Option.map_some']

theorem length_le_flatMap_utf8Bytes (cs : List Char) :
    cs.length ≤ (cs.flatMap utf8Bytes).length := by
  induction cs with
  | nil => simp
  | cons c rest ih =>
    obtain ⟨b, bs, hb⟩ := utf8Bytes_eq_cons c
    simp only [List.flatMap_cons, List.length_append, List.length_cons, hb]
    omega

theorem utf8Decode_flatMap (cs : List Char) :
    Interface.utf8Decode (cs.flatMap utf8Bytes) = some cs :=
  utf8DecodeLoop_flatMap cs _ (length_le_flatMap_utf8Bytes cs)

/-- URL decoding gives back the text that `encodeURIComponent` encoded. -/
theorem decodeURIComponent_encodeURIComponent (text : String) :
    Interface.decodeURIComponent (encodeURIComponent text) = some text := by
  unfold Interface.decodeURIComponent encodeURIComponent
  simp only [percentDecode_encode, utf8Decode_flatMap, Option.map_some']

theorem readKey_quote (name : String) (rest : List Char) :
    Interface.readKey name (quote name ++ ':' :: rest) = some rest := by
  simp [Interface.readKey, readString_quote, expect_cons, expect_nil]

theorem quote_eq_cons (s : String) : ∃ cs, quote s = DQUOTE :: cs := ⟨_, rfl⟩

theorem readStrings_joinChars (items : List String) (hitems : items ≠ []) (fuel : Nat)
    (hfuel : items.length ≤ fuel) (tail : List Char) :
    Interface.readStrings fuel (joinChars [','] (items.map quote) ++ ']' :: tail)
      = some (items, tail) := by
  induction items generalizing fuel with
  | nil => exact absurd rfl hitems
  | cons s rest ih =>
    cases fuel with
    | zero => simp at hfuel
    | succ f =>
      have hbracket : ¬ (']' : Char) = ',' := by decide
      cases rest with
      | nil =>
        simp only [List.map_cons, List.map_nil, joinChars, Interface.readStrings,
          readString_quote, if_neg hbracket, if_true]
      | cons s2 rest2 =>
        have hlen : (s2 :: rest2).length ≤ f := by
          simp only [List.length_cons] at hfuel ⊢
          omega
        have hrec := ih (List.cons_ne_nil _ _) f hlen
        simp only [List.map_cons, joinChars, List.append_assoc] at hrec ⊢
        simp only [Interface.readStrings, readString_quote, List.singleton_append,
          List.cons_append, List.nil_append, if_true, hrec, Option.map_some']

theorem length_le_joinChars_quote (items : List String) :
    items.length ≤ (joinChars [','] (items.map quote)).length := by
  induction items with
  | nil => simp [joinChars]
  | cons s rest ih =>
    obtain ⟨cs, hcs⟩ := quote_eq_cons s
    cases rest with
    | nil => simp [joinChars, hcs]
    | cons s2 rest2 =>
      simp only [List.map_cons, joinChars, List.length_append, List.length_cons] at ih ⊢
      omega

theorem readArray_text (items : List String) (tail : List Char) :
    Interface.readArray ((JsonValue.arr items).text ++ tail) = some (items, tail) := by
  cases items with
  | nil => simp [JsonValue.text, joinChars, Interface.readArray]
  | cons s rest =>
    obtain ⟨cs, hcs⟩ : ∃ cs, joinChars [','] ((s :: rest).map quote) = DQUOTE :: cs := by
      obtain ⟨cs, hcs⟩ := quote_eq_cons s
      cases rest with
      | nil => exact ⟨cs, by simp [joinChars, hcs]⟩
      | cons s2 rest2 => exact ⟨_, by simp [joinChars, hcs]; rfl⟩
    have hquote : ¬ DQUOTE = ']' := by decide
    have hfuel : (s :: rest).length
        ≤ (joinChars [','] ((s :: rest).map quote) ++ ']' :: tail).length := by
      have := length_le_joinChars_quote (s :: rest)
      simp only [List.length_append]
      omega
    have hread := readStrings_joinChars (s :: rest) (List.cons_ne_nil _ _) _ hfuel tail
    simp only [JsonValue.text, List.cons_append, List.append_assoc, List.singleton_append,
      Interface.readArray, if_true]
    rw [hcs] at hread ⊢
    simp only [List.cons_append, if_neg hquote] at hread ⊢
    exact hread

/-- Reading back the JSON text of the search parameter object gives its content. -/
theorem readParams_stringifyObject (q : String) (fields : List String) (page limit : Nat)
    (hpage : page < 1000000000000000000000) (hlimit : limit < 1000000000000000000000) :
    Interface.readParams (stringifyObject
      [("q", .str q), ("fields", .arr fields), ("page", .num page hpage),
       ("limit", .num limit hlimit)])
      = some ⟨q, fields, page, limit⟩ := by
  have hd : startsWithDigit [Char.ofNat 0x7D] = false := by decide
  have hf : startsFraction [Char.ofNat 0x7D] = false := by decide
  have harr := readArray_text fields
  unfold Interface.readParams stringifyObject
  simp only [List.map_cons, List.map_nil, joinChars, List.append_assoc, List.cons_append,
    List.nil_append, List.singleton_append, LBRACE, expect_cons, expect_nil, readKey_quote,
    JsonValue.text, readString_quote]
  simp only [JsonValue.text, List.cons_append, List.append_assoc, List.singleton_append,
    List.nil_append] at harr
  simp only [harr, expect_cons, expect_nil, readKey_quote,
    readNat_toString _ _ (startsWithDigit_comma _) (startsFraction_comma _),
    readNat_toString _ _ hd hf, RBRACE]

theorem split_FIELDS : split FIELDS ',' = Interface.projection := by decide

set_option maxRecDepth 100000 in
theorem requestUrl_sampleQuery :
    requestUrl 2 sampleQuery
      = some "https://api.artic.edu/api/v1/artworks/search?params=%7B%22q%22%3A%22%20monet%20%C3%A9%26x%22%2C%22fields%22%3A%5B%22id%22%2C%22title%22%2C%22artist_display%22%2C%22date_display%22%2C%22image_id%22%5D%2C%22page%22%3A2%2C%22limit%22%3A20%7D" := by
  decide

set_option maxRecDepth 100000 in
theorem requestUrl_blankQuery :
    requestUrl 3 blankQuery
      = some "https://api.artic.edu/api/v1/artworks?fields=id,title,artist_display,date_display,image_id&page=3&limit=20" := by
  decide

/-- C8: for every page number `n` below 10^21 (every page number that is printed as
plain digits, so every `n ≥ 1` that paging can reach) and every query `q`, the URL that
`fetchArtworks` fetches is the request of the external interface.  When `q` trimmed of
white space is empty, it is the listing endpoint with `fields` the comma-joined
projection "id,title,artist_display,date_display,image_id", `page = n` and
`limit = 20`.  Otherwise it is the search endpoint with the single parameter `params`:
its value contains none of `&`, `=`, `?`, `#`, it URL-decodes to a JSON text, and that
text is the object with `q` the query as given (not trimmed), `fields` the projection
as an array of 5 names, `page = n` and `limit = 20`.  The texts for page 2 of the query
" monet é&x" and for page 3 of a query of a space and a tab are as JavaScript builds
them, and `q` trimmed is empty exactly when `q` has white space characters only. -/
theorem requestUrl_is_catalogRequest (n : Nat) (q : String)
    (hplain : n < 1000000000000000000000) :
    (Interface.isBlank q = true →
      requestUrl n q
        = some ("https://api.artic.edu/api/v1/artworks?fields=id,title,artist_display,date_display,image_id&page="
            ++ toString n ++ "&limit=20")) ∧
    (Interface.isBlank q = false →
      ∃ value : String,
        requestUrl n q
          = some ("https://api.artic.edu/api/v1/artworks/search?params=" ++ value) ∧
        (∀ x ∈ value.data, x ≠ '&' ∧ x ≠ '=' ∧ x ≠ '?' ∧ x ≠ '#') ∧
        ∃ json : String, Interface.decodeURIComponent value = some json ∧
          Interface.readParams json
            = some ⟨q, ["id", "title", "artist_display", "date_display", "image_id"], n, 20⟩) ∧
    requestUrl 2 sampleQuery
      = some "https://api.artic.edu/api/v1/artworks/search?params=%7B%22q%22%3A%22%20monet%20%C3%A9%26x%22%2C%22fields%22%3A%5B%22id%22%2C%22title%22%2C%22artist_display%22%2C%22date_display%22%2C%22image_id%22%5D%2C%22page%22%3A2%2C%22limit%22%3A20%7D" ∧
    requestUrl 3 blankQuery
      = some "https://api.artic.edu/api/v1/artworks?fields=id,title,artist_display,date_display,image_id&page=3&limit=20" ∧
    (trim q = "" ↔ Interface.isBlank q = true) := by
  refine ⟨?_, ?_, ?_, ?_, trim_eq_empty_iff q⟩
  · intro hblank
    have htrim : trim q = "" := (trim_eq_empty_iff q).2 hblank
    have h0 : ¬ (trim q).length > 0 := fun hpos => (length_pos_iff_ne_empty _).1 hpos htrim
    unfold requestUrl
    rw [dif_pos hplain]
    simp only [h0, if_false]
    rfl
  · intro hblank
    have htrim : ¬ trim q = "" := by
      intro h
      rw [(trim_eq_empty_iff q).1 h] at hblank
      exact absurd hblank (by simp)
    have h0 : (trim q).length > 0 := (length_pos_iff_ne_empty _).2 htrim
    refine ⟨encodeURIComponent (stringifyObject
      [("q", .str q), ("fields", .arr Interface.projection), ("page", .num n hplain),
       ("limit", .num 20 (by decide))]), ?_, ?_, _,
      decodeURIComponent_encodeURIComponent _, readParams_stringifyObject _ _ _ _ _ _⟩
    · unfold requestUrl
      rw [dif_pos hplain]
      simp only [h0, if_true, split_FIELDS]
    · intro x hx
      rcases encodeURIComponent_chars _ x hx with h | h | h
      · refine ⟨?_, ?_, ?_, ?_⟩ <;> (intro hc; rw [hc] at h; revert h; decide)
      · refine ⟨?_, ?_, ?_, ?_⟩ <;> (intro hc; rw [hc] at h; revert h; decide)
      · refine ⟨?_, ?_, ?_, ?_⟩ <;> (intro hc; rw [hc] at h; revert h; decide)
  · exact requestUrl_sampleQuery
  · exact requestUrl_blankQuery

/-- C8 at page 2 of the query " monet é&x": the page number is below 10^21, the query
is not blank, and the request is a search request whose `params` value decodes to the
object with that query. -/
theorem requestUrl_is_catalogRequest_witness :
    2 < 1000000000000000000000 ∧ Interface.isBlank sampleQuery = false ∧
    ∃ value : String,
      requestUrl 2 sampleQuery
        = some ("https://api.artic.edu/api/v1/artworks/search?params=" ++ value) ∧
      (∀ x ∈ value.data, x ≠ '&' ∧ x ≠ '=' ∧ x ≠ '?' ∧ x ≠ '#') ∧
      ∃ json : String, Interface.decodeURIComponent value = some json ∧
        Interface.readParams json
          = some ⟨sampleQuery, ["id", "title", "artist_display", "date_display", "image_id"],
              2, 20⟩ :=
  ⟨by decide, by decide,
   (requestUrl_is_catalogRequest 2 sampleQuery (by decide)).2.1 (by decide)⟩

end ArtGallery
